import Mathlib

/-!
# mclk.lv2: MIDI clock generator

A shallow embedding of `src/mclk.c` and the properties of its per-block
callback `run`.

Modelling conventions.

* C `float` and `double` values are exact rationals: rounding error and
  overflow of floating-point arithmetic are not modelled, and every value read
  from a port or a host report is finite.  The one non-finite value the model
  tracks is the quotient `sample_rate * 60.0 / bpm` for `bpm = 0` (and what is
  computed from it): a `double` that may be non-finite is an `Option ℚ`, with
  `none` standing for an infinity or a NaN.
* `int`, `long int`, `int64_t` and `uint32_t` values are unbounded integers
  (`Int`, `Nat`): wrap-around of integer arithmetic is not modelled.  The
  conversions of a rounded port value or tempo to `int` (`set_mode`,
  `calc_song_pos`) and of the song position to `int64_t` (`calc_song_pos`)
  carry the range of the target type (`to_int`, `to_int64`).
* The sample rate is the rate the host passes to `instantiate`; the model is
  meant for a nonzero rate (the quotients by `60.f * sample_rate` at the end
  of `run` are finite then).
* The output port is the list of MIDI events forged during the call, in
  emission order; the capacity of the port buffer is taken to be sufficient.
* `run` is modelled for an instance whose ports are all connected.
* The `while (1)` loop of `run` takes a fuel argument; running out of fuel is
  an error result distinct from every value the C code can return.
-/

namespace MclkLv2

/-! ## MIDI constants -/

/-- MIDI System Real-Time message: clock. -/
def MIDI_RT_CLOCK : Nat := 0xF8

/-- MIDI System Real-Time message: start. -/
def MIDI_RT_START : Nat := 0xFA

/-- MIDI System Real-Time message: continue. -/
def MIDI_RT_CONTINUE : Nat := 0xFB

/-- MIDI System Real-Time message: stop. -/
def MIDI_RT_STOP : Nat := 0xFC

/-- Mode flag: do not send start/stop/continue messages. -/
def MSG_NO_TRANSPORT : Nat := 1

/-- Mode flag: do not send absolute song position. -/
def MSG_NO_POSITION : Nat := 2

/-- Mode flag: do not send MIDI Clock. -/
def MSG_NO_CLOCK : Nat := 4

/-! ## Data model -/

/-- One event forged into the MIDI output port: the frame time `tme` (sample
offset in the block) and the raw message bytes. -/
structure MidiEvent where
  tme : Int
  bytes : List Nat
deriving DecidableEq, Repr

/-- The fields of the C struct `Mclk` that `run` and `update_position` read or
write (port pointers, forge and URI map are left out). -/
structure Mclk where
  host_info : Bool
  host_bpm : ℚ
  bar_beats : ℚ
  host_speed : ℚ
  host_div : Int
  host_frame : Int
  sample_rate : ℚ
  mode : Nat
  rolling : Bool
  bb : ℚ
  last_bcnt : Int
  sample_pos : Int
  mclk_last_tick : Option ℚ
deriving DecidableEq, Repr

/-- An LV2 atom as far as `update_position` looks at it: its type and body. -/
inductive Atom where
  | long (body : Int)
  | int (body : Int)
  | float (body : ℚ)
  | other
deriving DecidableEq, Repr

/-- The result of `lv2_atom_object_get` on a `time:Position` object: for each
of the seven keys the atom found, or `none` (the C `NULL`). -/
structure PositionObject where
  bar : Option Atom
  beat : Option Atom
  bunit : Option Atom
  bpb : Option Atom
  bpm : Option Atom
  speed : Option Atom
  frame : Option Atom
deriving DecidableEq, Repr

/-- An event of the control input sequence: a `time:Position` object, or
anything else (which `run` skips). -/
inductive ControlEvent where
  | position (obj : PositionObject)
  | other
deriving DecidableEq, Repr

/-- What one call of `run` reads: the control sequence, the five control
ports and the block length. -/
structure Ports where
  control : List ControlEvent
  p_mode : ℚ
  p_sync : ℚ
  p_bpm : ℚ
  p_transport : ℚ
  p_rewind : ℚ
  n_samples : Nat
deriving DecidableEq, Repr

/-- What one call of `run` writes: the MIDI events in emission order and the
two output control ports. -/
structure Output where
  events : List MidiEvent
  p_hostbpm : ℚ
  p_songpos : ℚ
deriving DecidableEq, Repr

/-- Why a modelled call of `run` gives no result: the loop fuel ran out, or
`llrint` was applied to a non-finite value (unspecified in C). -/
inductive RunError where
  | out_of_fuel
  | nonfinite
deriving DecidableEq, Repr

/-! ## Rounding -/

/-- Round to the nearest integer, ties to even: the value of `rintf`, `llrint`
in the default rounding mode. -/
def rint (x : ℚ) : Int :=
  let f := ⌊x⌋
  let r := x - f
  if r < 1 / 2 then f else if 1 / 2 < r then f + 1 else if f % 2 = 0 then f else f + 1

/-- C `rintf`: the rounded value, before any conversion to an integer type. -/
def rintf (x : ℚ) : Int := rint x

/-- C `llrint`. -/
def llrint (x : ℚ) : Int := rint x

/-- Conversion of a floating-point value to an integer type: truncation
toward zero. -/
def trunc (x : ℚ) : Int := if 0 ≤ x then ⌊x⌋ else ⌈x⌉

/-- Smallest value of the C type `int` (32 bits). -/
def INT_MIN : Int := -2147483648

/-- Largest value of the C type `int` (32 bits). -/
def INT_MAX : Int := 2147483647

/-- Smallest value of `int64_t`. -/
def INT64_MIN : Int := -9223372036854775808

/-- Largest value of `int64_t`. -/
def INT64_MAX : Int := 9223372036854775807

/-- Conversion of an integer-valued `float` to the C type `int`.  The value is
kept when it lies in the range of `int`; outside of it the conversion is
undefined in C, and the model takes what the x86-64 conversion instruction
delivers, `INT_MIN`. -/
def to_int (v : Int) : Int := if INT_MIN ≤ v ∧ v ≤ INT_MAX then v else INT_MIN

/-- Conversion of an integer-valued `double` to `int64_t`.  The value is kept
when it lies in the range of `int64_t`; outside of it the conversion is
undefined in C, and the model takes what the x86-64 conversion instruction
delivers, `INT64_MIN`. -/
def to_int64 (v : Int) : Int := if INT64_MIN ≤ v ∧ v ≤ INT64_MAX then v else INT64_MIN

/-! ## Helper functions -/

/-- Body of an atom that is present and of type `atom_Float`. -/
def asFloat : Option Atom → Option ℚ
  | some (.float v) => some v
  | _ => none

/-- Body of an atom that is present and of type `atom_Long`. -/
def asLong : Option Atom → Option Int
  | some (.long v) => some v
  | _ => none

/-- Body of an atom that is present and of type `atom_Int`. -/
def asInt : Option Atom → Option Int
  | some (.int v) => some v
  | _ => none

/-- `update_position`: take over a host position report if all seven fields
are present and well-typed. -/
def update_position (self : Mclk) (obj : PositionObject) : Mclk :=
  match asFloat obj.bpm, asFloat obj.bpb, asLong obj.bar, asFloat obj.beat,
      asInt obj.bunit, asFloat obj.speed, asLong obj.frame with
  | some bpm, some bpb, some bar, some beat, some bunit, some speed, some frame =>
    { self with
      host_div := bunit
      host_bpm := bpm
      host_speed := speed
      host_frame := frame
      bar_beats := (bar : ℚ) * bpb + beat * (bunit : ℚ) / 4
      host_info := true }
  | _, _, _, _, _, _, _ => self

/-- `send_rt_message`: a one-byte MIDI message at frame time `tme`. -/
def send_rt_message (tme : Int) (rt_msg : Nat) : MidiEvent := ⟨tme, [rt_msg]⟩

/-- `send_pos_message`: the return value and the events forged.  In the range
`0 ≤ bcnt < 16384` the C expressions `bcnt & 0x7f` and `(bcnt >> 7) & 0x7f`
are `bcnt % 128` and `bcnt / 128 % 128`. -/
def send_pos_message (self : Mclk) (bcnt : Int) : Int × List MidiEvent :=
  if self.mode &&& MSG_NO_POSITION ≠ 0 then (-1, [])
  else if bcnt < 0 ∨ bcnt ≥ 16384 then (bcnt, [])
  else (bcnt, [⟨0, [0xf2, (bcnt % 128).toNat, (bcnt / 128 % 128).toNat]⟩])

/-- Seconds between the position and the continue message. -/
def resync_delay : ℚ := 1

/-- `calc_song_pos`: song position in MIDI beats; `off < 0` asks for the
automatic offset.  The local `off` is a C `int`: the assignment
`off = rintf (..)` converts the rounded `float` to `int`.  The returned sum
`off + floor (..)` is a `double` converted to `int64_t`. -/
def calc_song_pos (bar_beat bpm : ℚ) (off : Int) : Int :=
  let off := if off < 0 then
      (if bar_beat = 0 then 0 else to_int (rintf (bpm * 4 * resync_delay / 60)))
    else off
  to_int64 (off + ⌊4 * bar_beat⌋)

/-- `instantiate`: the state of a fresh instance (`calloc` zeroes the struct,
then five fields are set). -/
def instantiate (rate : ℚ) : Mclk :=
  { host_info := false, host_bpm := 0, bar_beats := 0, host_speed := 0, host_div := 0,
    host_frame := 0, sample_rate := rate, mode := 0, rolling := false, bb := 0,
    last_bcnt := -1, sample_pos := 0, mclk_last_tick := some 0 }

/-! ## The per-block callback `run` -/

/-- Process control events: every `time:Position` object of the control
sequence goes through `update_position`, in order. -/
def process_control (self : Mclk) (control : List ControlEvent) : Mclk :=
  control.foldl
    (fun s ev => match ev with
      | .position obj => update_position s obj
      | .other => s)
    self

/-- Set mode: the `switch ((int)rintf (*self->p_mode))`. -/
def set_mode (p_mode : ℚ) : Nat :=
  match to_int (rintf p_mode) with
  | 0 => MSG_NO_POSITION ||| MSG_NO_CLOCK
  | 1 => MSG_NO_POSITION ||| MSG_NO_TRANSPORT
  | 2 => MSG_NO_POSITION
  | _ => 0

/-- The instance and the locals of `run` after the block "set BarBeat &
transport state"; `reverse` records that the `goto noroll` for
`host_speed < 0` was taken. -/
structure Transport where
  self : Mclk
  p_hostbpm : ℚ
  bpm : ℚ
  sample_position : Int
  rolling : Bool
  bb : ℚ
  reverse : Bool
deriving DecidableEq, Repr

/-- Set BarBeat & transport state: from the host report when there is one and
sync is on, else from the control ports. -/
def set_transport (self : Mclk) (inp : Ports) : Transport :=
  if self.host_info = true ∧ inp.p_sync > 0 then
    let bpm := self.host_bpm * self.host_speed
    let sample_position := self.host_frame
    let rolling := decide (self.host_speed > 0)
    let bb := self.bar_beats
    if self.host_speed < 0 then
      ⟨self, self.host_bpm, bpm, sample_position, rolling, bb, true⟩
    else if |self.bb - self.bar_beats| > 1 then
      ⟨{ self with rolling := false, bb := -1 }, self.host_bpm, bpm, sample_position, false, bb,
        false⟩
    else
      ⟨self, self.host_bpm, bpm, sample_position, rolling, bb, false⟩
  else
    let p_hostbpm : ℚ := if self.host_info = true then -1 else 0
    let bpm := inp.p_bpm
    if inp.p_rewind > 0 then
      ⟨{ self with bb := 0, last_bcnt := -1, sample_pos := 0 }, p_hostbpm, bpm, 0, false, 0,
        false⟩
    else
      ⟨self, p_hostbpm, bpm, self.sample_pos, decide (inp.p_transport > 0), self.bb, false⟩

/-- The value of `samples_per_beat = (double) sample_rate * 60.0 / bpm`; for
`bpm = 0` the quotient is not finite. -/
def samples_per_beat (sample_rate bpm : ℚ) : Option ℚ :=
  if bpm = 0 then none else some (sample_rate * 60 / bpm)

/-- The value of `clock_tick_interval = samples_per_beat / quarter_notes_per_beat / 24.0`
with `quarter_notes_per_beat = 1.0`. -/
def clock_tick_interval (sample_rate bpm : ℚ) : Option ℚ :=
  (samples_per_beat sample_rate bpm).map (fun spb => spb / 1 / 24)

/-- Send position updates if stopped and located. -/
def send_located (self : Mclk) (rolling : Bool) (bb bpm : ℚ) : Mclk × List MidiEvent :=
  if rolling = false ∧ self.rolling = false then
    if bb ≠ self.bb then
      let r := send_pos_message self (calc_song_pos bb bpm (-1))
      ({ self with last_bcnt := r.1 }, r.2)
    else (self, [])
  else (self, [])

/-- Send RT messages start/stop/continue if the transport state changed, and
reset `mclk_last_tick`.  (The "initial beat tick" block of the source sends
nothing: its `send_rt_message` is commented out.) -/
def send_transport (self : Mclk) (rolling : Bool) (bb bpm : ℚ) (spb : Option ℚ) :
    Mclk × List MidiEvent :=
  if rolling ≠ self.rolling then
    let r : Mclk × List MidiEvent :=
      if rolling = true then
        if bb = 0 ∨ self.mode &&& MSG_NO_POSITION ≠ 0 then
          ({ self with last_bcnt := -1 },
            if self.mode &&& MSG_NO_TRANSPORT = 0 then [send_rt_message 0 MIDI_RT_START] else [])
        else
          (self,
            if self.mode &&& MSG_NO_POSITION ≠ 0 then
              (if self.mode &&& MSG_NO_TRANSPORT = 0 then [send_rt_message 0 MIDI_RT_CONTINUE]
                else [])
            else [])
      else
        let stop := if self.mode &&& MSG_NO_TRANSPORT = 0 then [send_rt_message 0 MIDI_RT_STOP]
          else []
        let p := send_pos_message self (calc_song_pos bb bpm (-1))
        ({ self with last_bcnt := p.1 }, stop ++ p.2)
    ({ r.1 with mclk_last_tick := spb.map (fun x => x * bb) }, r.2)
  else (self, [])

/-- Inside the tick loop: send the "continue" realtime message on time.
Returns the new `last_bcnt` and the events forged before the clock tick. -/
def send_continue (mode : Nat) (bb bpm : ℚ) (last_bcnt : Int) (ticks_sent_this_cycle : Nat)
    (next_tick_offset : Int) : Int × List MidiEvent :=
  if last_bcnt > 0 ∧ mode &&& MSG_NO_POSITION = 0 then
    if calc_song_pos bb bpm 0 + ((ticks_sent_this_cycle / 6 : Nat) : Int) ≥ last_bcnt then
      (-1,
        if mode &&& MSG_NO_TRANSPORT = 0 then [send_rt_message next_tick_offset MIDI_RT_CONTINUE]
        else [])
    else (last_bcnt, [])
  else (last_bcnt, [])

/-- Send clock ticks for this cycle: the `while (1)` loop, on its state
`mclk_last_tick`, `last_bcnt`, `ticks_sent_this_cycle`.  Returns the final
`mclk_last_tick` and `last_bcnt` and the events forged, or `none` when the
fuel runs out. -/
def tick_loop (mode : Nat) (bb bpm interval : ℚ) (sample_position : Int) (n_samples : Nat) :
    Nat → ℚ → Int → Nat → Option (ℚ × Int × List MidiEvent)
  | 0, _, _, _ => none
  | fuel + 1, mclk_last_tick, last_bcnt, ticks_sent_this_cycle =>
    let next_tick := mclk_last_tick + interval
    let next_tick_offset := llrint next_tick - sample_position
    if next_tick_offset ≥ (n_samples : Int) then some (mclk_last_tick, last_bcnt, [])
    else if next_tick_offset ≥ 0 then
      let c := send_continue mode bb bpm last_bcnt ticks_sent_this_cycle next_tick_offset
      match tick_loop mode bb bpm interval sample_position n_samples fuel next_tick c.1
          (ticks_sent_this_cycle + 1) with
      | none => none
      | some (t, b, evs) => some (t, b, c.2 ++ send_rt_message next_tick_offset MIDI_RT_CLOCK :: evs)
    else
      tick_loop mode bb bpm interval sample_position n_samples fuel next_tick last_bcnt
        ticks_sent_this_cycle

/-- The code after the label `noroll`, apart from the write to `p_songpos`:
keep track of the host position and prepare for the next cycle. -/
def next_cycle (self : Mclk) (inp : Ports) (rolling : Bool) (bpm : ℚ) : Mclk :=
  let self :=
    if self.host_info = true then
      { self with
        bar_beats := self.bar_beats
          + (inp.n_samples : ℚ) * self.host_bpm * self.host_speed / (60 * self.sample_rate)
        host_frame := trunc ((self.host_frame : ℚ) + (inp.n_samples : ℚ) * self.host_speed) }
    else self
  if self.host_info = true ∧ inp.p_sync > 0 then
    { self with bb := self.bar_beats, sample_pos := self.host_frame }
  else if rolling = true then
    { self with
      bb := self.bb + (inp.n_samples : ℚ) * bpm / (60 * self.sample_rate)
      sample_pos := self.sample_pos + (inp.n_samples : Int) }
  else self

/-- The locals of `run` for this block: control events processed, mode set,
BarBeat & transport state set. -/
def block_transport (self : Mclk) (inp : Ports) : Transport :=
  set_transport { process_control self inp.control with mode := set_mode inp.p_mode } inp

/-- The instance and the events forged when `run` reaches the test
`if (!rolling || (self->mode & MSG_NO_CLOCK))` before the tick loop (the path
that does not take the `goto noroll` for `host_speed < 0`). -/
def before_ticks (self : Mclk) (inp : Ports) : Mclk × List MidiEvent :=
  let t := block_transport self inp
  let l := send_located t.self t.rolling t.bb t.bpm
  let r := send_transport l.1 t.rolling t.bb t.bpm (samples_per_beat t.self.sample_rate t.bpm)
  ({ r.1 with rolling := t.rolling }, l.2 ++ r.2)

/-- One call of `run` on a connected instance: the new state and what was
written to the output ports. -/
def run (fuel : Nat) (self : Mclk) (inp : Ports) : Except RunError (Mclk × Output) :=
  let t := block_transport self inp
  if t.reverse = true then
    .ok (next_cycle t.self inp t.rolling t.bpm, ⟨[], t.p_hostbpm, t.bb⟩)
  else
    let s := before_ticks self inp
    if t.rolling = false ∨ s.1.mode &&& MSG_NO_CLOCK ≠ 0 then
      .ok (next_cycle s.1 inp t.rolling t.bpm, ⟨s.2, t.p_hostbpm, t.bb⟩)
    else
      match s.1.mclk_last_tick, clock_tick_interval t.self.sample_rate t.bpm with
      | some last_tick, some interval =>
        match tick_loop s.1.mode t.bb t.bpm interval t.sample_position inp.n_samples fuel
            last_tick s.1.last_bcnt 0 with
        | none => .error .out_of_fuel
        | some (last_tick, last_bcnt, evs) =>
          .ok (next_cycle { s.1 with mclk_last_tick := some last_tick, last_bcnt := last_bcnt }
                inp t.rolling t.bpm,
              ⟨s.2 ++ evs, t.p_hostbpm, t.bb⟩)
      | _, _ => .error .nonfinite

/-- Consecutive calls of `run`, one per block, each with the same loop fuel:
the final state and the outputs of the blocks in order. -/
def run_blocks (fuel : Nat) : Mclk → List Ports → Except RunError (Mclk × List Output)
  | self, [] => .ok (self, [])
  | self, inp :: rest =>
    match run fuel self inp with
    | .error e => .error e
    | .ok (self1, out) =>
      match run_blocks fuel self1 rest with
      | .error e => .error e
      | .ok (self2, outs) => .ok (self2, out :: outs)

/-! ## Classes of output events -/

/-- A clock pulse: the one-byte message `0xF8`. -/
def is_clock (e : MidiEvent) : Bool := decide (e.bytes = [MIDI_RT_CLOCK])

/-- A transport message: the one-byte message start, stop or continue. -/
def is_transport (e : MidiEvent) : Bool :=
  decide (e.bytes = [MIDI_RT_START] ∨ e.bytes = [MIDI_RT_STOP] ∨ e.bytes = [MIDI_RT_CONTINUE])

/-- A song-position message: status byte `0xF2` and two data bytes. -/
def is_song_position (e : MidiEvent) : Bool :=
  match e.bytes with
  | [0xf2, _, _] => true
  | _ => false

/-- The clock pulses among a list of events. -/
def clock_events (evs : List MidiEvent) : List MidiEvent := evs.filter is_clock

/-- The sample offsets of the clock pulses among a list of events. -/
def clock_offsets (evs : List MidiEvent) : List Int := (clock_events evs).map (fun e => e.tme)

/-! ## Consecutive blocks -/

/-- The number of clock pulses in the outputs of consecutive blocks. -/
def total_clocks (outs : List Output) : Nat :=
  (outs.map (fun o => (clock_events o.events).length)).sum

/-- The number of samples of consecutive blocks. -/
def total_samples (inps : List Ports) : Nat := (inps.map (fun i => i.n_samples)).sum

/-- Free-running blocks: in every block `run` takes the internal branch of
"set BarBeat & transport state", because sync is off or no valid host report
has arrived so far. -/
def free_running : Mclk → List Ports → Bool
  | _, [] => true
  | self, inp :: rest =>
    !(decide ((process_control self inp.control).host_info = true ∧ inp.p_sync > 0))
      && free_running (process_control self inp.control) rest

/-- The state of a rolling instance whose phase accumulator stands at tick
number `K` of a tick grid of the given interval and whose playhead is at sample
`P`: tick `K` is before the playhead, tick `K + 1` is not, and no resync is
pending. -/
def rolling_at (interval : ℚ) (K : Nat) (P : Int) (self : Mclk) : Prop :=
  self.rolling = true ∧ self.sample_pos = P
    ∧ self.mclk_last_tick = some ((K : ℚ) * interval) ∧ self.last_bcnt ≤ 0
    ∧ P ≤ llrint (((K : ℚ) + 1) * interval) ∧ (1 ≤ K → llrint ((K : ℚ) * interval) < P)

/-! ## Example states -/

/-- An instance at 48000 Hz that is free-running and rolling at bar_beat 4:
two seconds into the song at 120 bpm. -/
def rolling_internal : Mclk :=
  { host_info := false, host_bpm := 0, bar_beats := 0, host_speed := 0, host_div := 0,
    host_frame := 0, sample_rate := 48000, mode := 0, rolling := true, bb := 4,
    last_bcnt := -1, sample_pos := 96000, mclk_last_tick := some 96000 }

/-- A complete host position report in 4/4 time, as a control event. -/
def host_report (bar : Int) (beat bpm speed : ℚ) (frame : Int) : ControlEvent :=
  .position ⟨some (.long bar), some (.float beat), some (.int 4), some (.float 4),
    some (.float bpm), some (.float speed), some (.long frame)⟩

/-- An instance at 48000 Hz that is rolling at bar_beat 4 under external
sync: two seconds into the song at 120 bpm. -/
def rolling_sync : Mclk :=
  { host_info := true, host_bpm := 120, bar_beats := 4, host_speed := 1, host_div := 4,
    host_frame := 96000, sample_rate := 48000, mode := 0, rolling := true, bb := 4,
    last_bcnt := -1, sample_pos := 96000, mclk_last_tick := some 96000 }

/-- An instance at 48000 Hz, free-running, stopped at bar_beat 4 after a stop
at 15 bpm: the song position `1 + 16 = 17` announced with the stop is the
pending resync target. -/
def stopped_pending : Mclk :=
  { host_info := false, host_bpm := 0, bar_beats := 0, host_speed := 0, host_div := 0,
    host_frame := 0, sample_rate := 48000, mode := 0, rolling := false, bb := 4,
    last_bcnt := 17, sample_pos := 768000, mclk_last_tick := some 768000 }

/-- An instance at 48000 Hz that is stopped at bar_beat 4 under external
sync, after the host paused there: the song position 16 was announced with
the stop, and the phase accumulator was reset with tempo 0, to a non-finite
value. -/
def stopped_sync : Mclk :=
  { host_info := true, host_bpm := 120, bar_beats := 4, host_speed := 0, host_div := 4,
    host_frame := 96000, sample_rate := 48000, mode := 0, rolling := false, bb := 4,
    last_bcnt := 16, sample_pos := 96000, mclk_last_tick := none }

/-! ## Host position reports -/

/-- The test of `update_position`: all seven atoms of the report are present
and of the expected type. -/
def valid_report (obj : PositionObject) : Bool :=
  (asFloat obj.bpm).isSome && (asFloat obj.bpb).isSome && (asLong obj.bar).isSome
    && (asFloat obj.beat).isSome && (asInt obj.bunit).isSome && (asFloat obj.speed).isSome
    && (asLong obj.frame).isSome

/-- A control event that is a host position report passing the test of
`update_position`. -/
def is_valid_report : ControlEvent → Bool
  | .position obj => valid_report obj
  | .other => false

/-- A host position report: bar 1, beat 0 of a 4/4 bar at 120 bpm, playing,
at frame 0. -/
def report_example : PositionObject :=
  ⟨some (.long 1), some (.float 0), some (.int 4), some (.float 4), some (.float 120),
    some (.float 1), some (.long 0)⟩

/-! # Properties -/

/-! ## Rounding lemmas -/

theorem rint_cases (x : ℚ) :
    (rint x = ⌊x⌋ ∧ x - ⌊x⌋ ≤ 1 / 2) ∨ (rint x = ⌊x⌋ + 1 ∧ 1 / 2 ≤ x - ⌊x⌋) := by
  unfold rint
  simp only
  split_ifs with h1 h2 h3
  · left; exact ⟨rfl, le_of_lt h1⟩
  · right; exact ⟨rfl, le_of_lt h2⟩
  · left; exact ⟨rfl, not_lt.mp h2⟩
  · right; exact ⟨rfl, not_lt.mp h1⟩

theorem rint_le (x : ℚ) : (rint x : ℚ) ≤ x + 1 / 2 := by
  have hf := Int.floor_le x
  have hl := Int.lt_floor_add_one x
  rcases rint_cases x with ⟨h, _⟩ | ⟨h, h2⟩
  · rw [h]; linarith
  · rw [h]; push_cast; linarith

theorem le_rint (x : ℚ) : x - 1 / 2 ≤ (rint x : ℚ) := by
  have hf := Int.floor_le x
  have hl := Int.lt_floor_add_one x
  rcases rint_cases x with ⟨h, h2⟩ | ⟨h, h2⟩
  · rw [h]; linarith
  · rw [h]; push_cast; linarith

theorem rint_mono {x y : ℚ} (h : x ≤ y) : rint x ≤ rint y := by
  have hfg : ⌊x⌋ ≤ ⌊y⌋ := Int.floor_mono h
  rcases lt_or_eq_of_le hfg with hlt | heq
  · rcases rint_cases x with ⟨hx, _⟩ | ⟨hx, _⟩ <;> rcases rint_cases y with ⟨hy, _⟩ | ⟨hy, _⟩ <;>
      omega
  · unfold rint
    simp only
    rw [← heq]
    have hxy : x - ⌊x⌋ ≤ y - ⌊x⌋ := by linarith
    split_ifs <;> first | omega | (exfalso; linarith)

theorem rint_intCast (n : Int) : rint (n : ℚ) = n := by
  unfold rint
  simp

/-! ## The tick loop -/

theorem tick_loop_succ (mode : Nat) (bb bpm interval : ℚ) (sample_position : Int)
    (n_samples fuel : Nat) (last : ℚ) (lb : Int) (t : Nat) :
    tick_loop mode bb bpm interval sample_position n_samples (fuel + 1) last lb t =
      if llrint (last + interval) - sample_position ≥ (n_samples : Int) then some (last, lb, [])
      else if llrint (last + interval) - sample_position ≥ 0 then
        match tick_loop mode bb bpm interval sample_position n_samples fuel (last + interval)
            (send_continue mode bb bpm lb t (llrint (last + interval) - sample_position)).1
            (t + 1) with
        | none => none
        | some (t1, b, evs) =>
          some (t1, b,
            (send_continue mode bb bpm lb t (llrint (last + interval) - sample_position)).2
              ++ send_rt_message (llrint (last + interval) - sample_position) MIDI_RT_CLOCK
                :: evs)
      else tick_loop mode bb bpm interval sample_position n_samples fuel (last + interval) lb t :=
  rfl

theorem send_continue_events (mode : Nat) (bb bpm : ℚ) (lb : Int) (t : Nat) (off : Int) :
    ∀ e ∈ (send_continue mode bb bpm lb t off).2,
      e = send_rt_message off MIDI_RT_CONTINUE ∧ 0 < lb ∧ mode &&& MSG_NO_POSITION = 0
        ∧ mode &&& MSG_NO_TRANSPORT = 0 := by
  intro e he
  by_cases h1 : lb > 0 ∧ mode &&& MSG_NO_POSITION = 0
  · by_cases h2 : calc_song_pos bb bpm 0 + ((t / 6 : Nat) : Int) ≥ lb
    · by_cases h3 : mode &&& MSG_NO_TRANSPORT = 0
      · rw [send_continue, if_pos h1, if_pos h2, if_pos h3] at he
        exact ⟨List.mem_singleton.mp he, h1.1, h1.2, h3⟩
      · rw [send_continue, if_pos h1, if_pos h2, if_neg h3] at he
        exact absurd he (List.not_mem_nil _)
    · rw [send_continue, if_pos h1, if_neg h2] at he
      exact absurd he (List.not_mem_nil _)
  · rw [send_continue, if_neg h1] at he
    exact absurd he (List.not_mem_nil _)

/-- Every event of the tick loop lies in the block, at or after the first
tick of the loop, and the events come in non-decreasing time order. -/
theorem tick_loop_events {mode : Nat} {bb bpm interval : ℚ} {sample_position : Int}
    {n_samples : Nat} (hI : 0 ≤ interval) :
    ∀ (fuel : Nat) (last : ℚ) (lb : Int) (t : Nat) (r : ℚ × Int × List MidiEvent),
      tick_loop mode bb bpm interval sample_position n_samples fuel last lb t = some r →
      (∀ e ∈ r.2.2, llrint (last + interval) - sample_position ≤ e.tme ∧ 0 ≤ e.tme
          ∧ e.tme < n_samples)
        ∧ r.2.2.Pairwise (fun a b => a.tme ≤ b.tme) := by
  intro fuel
  induction fuel with
  | zero => intro last lb t r h; simp [tick_loop] at h
  | succ fuel ih =>
    intro last lb t r h
    rw [tick_loop_succ] at h
    split_ifs at h with h1 h2
    · cases h; simp
    · cases hrec : tick_loop mode bb bpm interval sample_position n_samples fuel
          (last + interval)
          (send_continue mode bb bpm lb t (llrint (last + interval) - sample_position)).1
          (t + 1) with
      | none => simp [hrec] at h
      | some r1 =>
        obtain ⟨l1, b1, evs⟩ := r1
        simp only [hrec, Option.some.injEq] at h
        subst h
        obtain ⟨hmem, hsorted⟩ := ih _ _ _ _ hrec
        have hstep : llrint (last + interval) ≤ llrint (last + interval + interval) :=
          rint_mono (by linarith)
        have hc := send_continue_events mode bb bpm lb t
          (llrint (last + interval) - sample_position)
        simp only at hmem hsorted
        refine ⟨?_, ?_⟩
        · intro e he
          simp only [List.mem_append, List.mem_cons] at he
          rcases he with he | he | he
          · rw [(hc e he).1]; simp only [send_rt_message]; omega
          · rw [he]; simp only [send_rt_message]; omega
          · have := hmem e he; omega
        · simp only [List.pairwise_append, List.pairwise_cons]
          refine ⟨?_, ⟨?_, hsorted⟩, ?_⟩
          · apply List.Pairwise.imp_of_mem _ (List.pairwise_of_forall (R := fun _ _ => True)
              (fun _ _ => trivial))
            intro a b ha hb _
            rw [(hc a ha).1, (hc b hb).1]
          · intro e he
            have := hmem e he
            simp only [send_rt_message]; omega
          · intro a ha b hb
            rw [(hc a ha).1]
            simp only [List.mem_cons] at hb
            rcases hb with hb | hb
            · rw [hb]; simp [send_rt_message]
            · have := hmem b hb
              simp only [send_rt_message]; omega
    · have hstep : llrint (last + interval) ≤ llrint (last + interval + interval) :=
        rint_mono (by linarith)
      obtain ⟨hmem, hsorted⟩ := ih _ _ _ _ h
      refine ⟨fun e he => ?_, hsorted⟩
      have := hmem e he
      omega

/-- The loop ends when the fuel covers the ticks up to the end of the block. -/
theorem tick_loop_terminates (mode : Nat) (bb bpm : ℚ) {interval : ℚ} {sample_position : Int}
    {n_samples : Nat} :
    ∀ (fuel : Nat) (last : ℚ) (lb : Int) (t : Nat),
      (n_samples : ℚ) + sample_position + 1 - last ≤ ((fuel : ℚ) + 1) * interval →
      ∃ r, tick_loop mode bb bpm interval sample_position n_samples (fuel + 1) last lb t
        = some r := by
  intro fuel
  induction fuel with
  | zero =>
    intro last lb t h
    have h1 : (n_samples : Int) ≤ llrint (last + interval) - sample_position := by
      have := le_rint (last + interval)
      have h2 : ((n_samples : Int) : ℚ) + sample_position - 1 < (llrint (last + interval) : ℚ) := by
        unfold llrint
        push_cast at h ⊢
        linarith
      have h3 : (n_samples : Int) + sample_position - 1 < llrint (last + interval) := by
        exact_mod_cast h2
      omega
    rw [tick_loop_succ, if_pos h1]
    exact ⟨_, rfl⟩
  | succ fuel ih =>
    intro last lb t h
    have hnext : (n_samples : ℚ) + sample_position + 1 - (last + interval)
        ≤ ((fuel : ℚ) + 1) * interval := by
      push_cast at h
      linarith
    rw [tick_loop_succ]
    split_ifs with h1 h2
    · exact ⟨_, rfl⟩
    · obtain ⟨r, hr⟩ := ih (last + interval)
        (send_continue mode bb bpm lb t (llrint (last + interval) - sample_position)).1
        (t + 1) hnext
      rw [hr]
      exact ⟨_, rfl⟩
    · exact ih (last + interval) lb t hnext

theorem tick_loop_exists_fuel (mode : Nat) (bb bpm : ℚ) {interval : ℚ} (sample_position : Int)
    (n_samples : Nat) (hI : 0 < interval) (last : ℚ) (lb : Int) (t : Nat) :
    ∃ fuel r, tick_loop mode bb bpm interval sample_position n_samples fuel last lb t
      = some r := by
  obtain ⟨m, hm⟩ := exists_nat_ge (((n_samples : ℚ) + sample_position + 1 - last) / interval)
  refine ⟨m + 1, tick_loop_terminates mode bb bpm m last lb t ?_⟩
  rw [div_le_iff₀ hI] at hm
  linarith

/-! ## Structure of a call of `run` -/

/-- The three ways a call of `run` returns: through the `goto noroll` for a
reversed host, through the `goto noroll` before the tick loop, or after the
tick loop. -/
theorem run_ok_cases {fuel : Nat} {self : Mclk} {inp : Ports} {r : Mclk × Output}
    (h : run fuel self inp = .ok r) :
    ((block_transport self inp).reverse = true
      ∧ r = (next_cycle (block_transport self inp).self inp (block_transport self inp).rolling
              (block_transport self inp).bpm,
            ⟨[], (block_transport self inp).p_hostbpm, (block_transport self inp).bb⟩))
    ∨ ((block_transport self inp).reverse = false
      ∧ ((block_transport self inp).rolling = false
          ∨ (before_ticks self inp).1.mode &&& MSG_NO_CLOCK ≠ 0)
      ∧ r = (next_cycle (before_ticks self inp).1 inp (block_transport self inp).rolling
              (block_transport self inp).bpm,
            ⟨(before_ticks self inp).2, (block_transport self inp).p_hostbpm,
              (block_transport self inp).bb⟩))
    ∨ ((block_transport self inp).reverse = false
      ∧ (block_transport self inp).rolling = true
      ∧ (before_ticks self inp).1.mode &&& MSG_NO_CLOCK = 0
      ∧ ∃ last interval last1 bcnt1 evs,
          (before_ticks self inp).1.mclk_last_tick = some last
          ∧ clock_tick_interval (block_transport self inp).self.sample_rate
              (block_transport self inp).bpm = some interval
          ∧ tick_loop (before_ticks self inp).1.mode (block_transport self inp).bb
              (block_transport self inp).bpm interval (block_transport self inp).sample_position
              inp.n_samples fuel last (before_ticks self inp).1.last_bcnt 0
            = some (last1, bcnt1, evs)
          ∧ r = (next_cycle
                  { (before_ticks self inp).1 with
                    mclk_last_tick := some last1, last_bcnt := bcnt1 }
                  inp (block_transport self inp).rolling (block_transport self inp).bpm,
                ⟨(before_ticks self inp).2 ++ evs, (block_transport self inp).p_hostbpm,
                  (block_transport self inp).bb⟩)) := by
  unfold run at h
  simp only at h
  split_ifs at h with h1 h2
  · left
    exact ⟨h1, (Except.ok.inj h).symm⟩
  · right; left
    exact ⟨by simpa using h1, h2, (Except.ok.inj h).symm⟩
  · right; right
    have hroll : (block_transport self inp).rolling = true := by
      by_contra hc
      exact h2 (Or.inl (by simpa using hc))
    have hclk : (before_ticks self inp).1.mode &&& MSG_NO_CLOCK = 0 := by
      by_contra hc
      exact h2 (Or.inr hc)
    refine ⟨by simpa using h1, hroll, hclk, ?_⟩
    split at h
    · rename_i last interval hl hi
      split at h
      · cases h
      · rename_i last1 bcnt1 evs hloop
        exact ⟨last, interval, last1, bcnt1, evs, hl, hi, hloop, (Except.ok.inj h).symm⟩
    · cases h

/-! ## What the blocks before the tick loop keep and forge -/

theorem update_position_keeps (self : Mclk) (obj : PositionObject) :
    (update_position self obj).sample_rate = self.sample_rate
      ∧ (update_position self obj).mode = self.mode
      ∧ (update_position self obj).rolling = self.rolling
      ∧ (update_position self obj).bb = self.bb
      ∧ (update_position self obj).last_bcnt = self.last_bcnt
      ∧ (update_position self obj).sample_pos = self.sample_pos
      ∧ (update_position self obj).mclk_last_tick = self.mclk_last_tick := by
  unfold update_position
  split <;> simp

theorem process_control_keeps (control : List ControlEvent) :
    ∀ self : Mclk,
      (process_control self control).sample_rate = self.sample_rate
        ∧ (process_control self control).mode = self.mode
        ∧ (process_control self control).rolling = self.rolling
        ∧ (process_control self control).bb = self.bb
        ∧ (process_control self control).last_bcnt = self.last_bcnt
        ∧ (process_control self control).sample_pos = self.sample_pos
        ∧ (process_control self control).mclk_last_tick = self.mclk_last_tick := by
  induction control with
  | nil => intro self; simp [process_control]
  | cons ev rest ih =>
    intro self
    have hstep : process_control self (ev :: rest)
        = process_control (match ev with
            | .position obj => update_position self obj
            | .other => self) rest := rfl
    rw [hstep]
    cases ev with
    | position obj =>
      have h1 := ih (update_position self obj)
      have h2 := update_position_keeps self obj
      simp only at h1 ⊢
      refine ⟨?_, ?_, ?_, ?_, ?_, ?_, ?_⟩
      · rw [h1.1, h2.1]
      · rw [h1.2.1, h2.2.1]
      · rw [h1.2.2.1, h2.2.2.1]
      · rw [h1.2.2.2.1, h2.2.2.2.1]
      · rw [h1.2.2.2.2.1, h2.2.2.2.2.1]
      · rw [h1.2.2.2.2.2.1, h2.2.2.2.2.2.1]
      · rw [h1.2.2.2.2.2.2, h2.2.2.2.2.2.2]
    | other => exact ih self

theorem set_transport_keeps (self : Mclk) (inp : Ports) :
    (set_transport self inp).self.sample_rate = self.sample_rate
      ∧ (set_transport self inp).self.mode = self.mode
      ∧ (set_transport self inp).self.mclk_last_tick = self.mclk_last_tick := by
  unfold set_transport
  simp only
  split_ifs <;> simp

theorem block_transport_keeps (self : Mclk) (inp : Ports) :
    (block_transport self inp).self.sample_rate = self.sample_rate
      ∧ (block_transport self inp).self.mode = set_mode inp.p_mode
      ∧ (block_transport self inp).self.mclk_last_tick = self.mclk_last_tick := by
  have h1 := set_transport_keeps
    { process_control self inp.control with mode := set_mode inp.p_mode } inp
  have h2 := process_control_keeps inp.control self
  unfold block_transport
  refine ⟨?_, ?_, ?_⟩
  · rw [h1.1]; exact h2.1
  · rw [h1.2.1]
  · rw [h1.2.2]; exact h2.2.2.2.2.2.2

theorem send_located_keeps (self : Mclk) (rolling : Bool) (bb bpm : ℚ) :
    (send_located self rolling bb bpm).1.mode = self.mode
      ∧ (send_located self rolling bb bpm).1.rolling = self.rolling
      ∧ (send_located self rolling bb bpm).1.mclk_last_tick = self.mclk_last_tick
      ∧ (send_located self rolling bb bpm).1.sample_rate = self.sample_rate := by
  unfold send_located
  split_ifs <;> simp

theorem send_transport_keeps (self : Mclk) (rolling : Bool) (bb bpm : ℚ) (spb : Option ℚ) :
    (send_transport self rolling bb bpm spb).1.mode = self.mode
      ∧ (send_transport self rolling bb bpm spb).1.sample_rate = self.sample_rate
      ∧ (send_transport self rolling bb bpm spb).1.mclk_last_tick
          = if rolling ≠ self.rolling then spb.map (fun x => x * bb) else self.mclk_last_tick := by
  unfold send_transport
  simp only
  split_ifs <;> simp

theorem before_ticks_mode (self : Mclk) (inp : Ports) :
    (before_ticks self inp).1.mode = set_mode inp.p_mode := by
  unfold before_ticks
  simp only
  rw [(send_transport_keeps _ _ _ _ _).1, (send_located_keeps _ _ _ _).1]
  exact (block_transport_keeps self inp).2.1

theorem send_pos_message_events (self : Mclk) (bcnt : Int) :
    ∀ e ∈ (send_pos_message self bcnt).2,
      e.tme = 0 ∧ is_song_position e = true ∧ self.mode &&& MSG_NO_POSITION = 0 := by
  intro e he
  unfold send_pos_message at he
  split_ifs at he with h1 h2
  · exact absurd he (List.not_mem_nil _)
  · exact absurd he (List.not_mem_nil _)
  · rw [List.mem_singleton.mp he]
    exact ⟨rfl, rfl, not_not.mp h1⟩

theorem send_located_events (self : Mclk) (rolling : Bool) (bb bpm : ℚ) :
    ∀ e ∈ (send_located self rolling bb bpm).2,
      e.tme = 0 ∧ is_song_position e = true ∧ self.mode &&& MSG_NO_POSITION = 0 := by
  intro e he
  unfold send_located at he
  split_ifs at he with h1 h2
  · exact send_pos_message_events self _ e he
  · exact absurd he (List.not_mem_nil _)
  · exact absurd he (List.not_mem_nil _)

theorem send_transport_events (self : Mclk) (rolling : Bool) (bb bpm : ℚ) (spb : Option ℚ) :
    ∀ e ∈ (send_transport self rolling bb bpm spb).2,
      e.tme = 0 ∧ ((is_song_position e = true ∧ self.mode &&& MSG_NO_POSITION = 0)
        ∨ (is_transport e = true ∧ self.mode &&& MSG_NO_TRANSPORT = 0)) := by
  intro e he
  have hpos := send_pos_message_events self (calc_song_pos bb bpm (-1)) e
  unfold send_transport at he
  simp only at he
  split_ifs at he with h1 h2 h3 h4 h5 h6 h7
  · rw [List.mem_singleton.mp he]
    exact ⟨rfl, Or.inr ⟨by decide, h4⟩⟩
  · exact absurd he (List.not_mem_nil _)
  · rw [List.mem_singleton.mp he]
    exact ⟨rfl, Or.inr ⟨by decide, h6⟩⟩
  · exact absurd he (List.not_mem_nil _)
  · exact absurd he (List.not_mem_nil _)
  · rcases List.mem_append.mp he with he | he
    · rw [List.mem_singleton.mp he]
      exact ⟨rfl, Or.inr ⟨by decide, h7⟩⟩
    · exact ⟨(hpos he).1, Or.inl (hpos he).2⟩
  · rcases List.mem_append.mp he with he | he
    · exact absurd he (List.not_mem_nil _)
    · exact ⟨(hpos he).1, Or.inl (hpos he).2⟩
  · exact absurd he (List.not_mem_nil _)

/-- Every event forged before the tick loop is at frame time 0 and is a
song-position message (only when these are enabled) or a transport message
(only when these are enabled). -/
theorem before_ticks_events (self : Mclk) (inp : Ports) :
    ∀ e ∈ (before_ticks self inp).2,
      e.tme = 0 ∧ ((is_song_position e = true ∧ set_mode inp.p_mode &&& MSG_NO_POSITION = 0)
        ∨ (is_transport e = true ∧ set_mode inp.p_mode &&& MSG_NO_TRANSPORT = 0)) := by
  intro e he
  unfold before_ticks at he
  simp only [List.mem_append] at he
  have hm := (block_transport_keeps self inp).2.1
  rcases he with he | he
  · have := send_located_events _ _ _ _ e he
    rw [hm] at this
    exact ⟨this.1, Or.inl this.2⟩
  · have := send_transport_events _ _ _ _ _ e he
    rw [(send_located_keeps _ _ _ _).1, hm] at this
    exact this

theorem not_clock_of_song_position {e : MidiEvent} (h : is_song_position e = true) :
    is_clock e = false := by
  unfold is_song_position at h
  split at h
  · rename_i h1; simp [is_clock, h1, MIDI_RT_CLOCK]
  · cases h

theorem not_clock_of_transport {e : MidiEvent} (h : is_transport e = true) :
    is_clock e = false := by
  unfold is_transport at h
  simp only [decide_eq_true_eq] at h
  rcases h with h | h | h <;>
    simp [is_clock, h, MIDI_RT_CLOCK, MIDI_RT_START, MIDI_RT_STOP, MIDI_RT_CONTINUE]

theorem before_ticks_no_clock (self : Mclk) (inp : Ports) :
    clock_events (before_ticks self inp).2 = [] := by
  unfold clock_events
  rw [List.filter_eq_nil_iff]
  intro e he
  rcases (before_ticks_events self inp e he).2 with h | h
  · simp [not_clock_of_song_position h.1]
  · simp [not_clock_of_transport h.1]

theorem clock_tick_interval_pos {sample_rate bpm interval : ℚ} (hsr : 0 < sample_rate)
    (hbpm : 0 < bpm) (h : clock_tick_interval sample_rate bpm = some interval) :
    0 < interval := by
  unfold clock_tick_interval samples_per_beat at h
  rw [if_neg (ne_of_gt hbpm)] at h
  simp only [Option.map_some', Option.some.injEq] at h
  rw [← h]
  positivity

theorem clock_tick_interval_some (sample_rate : ℚ) {bpm : ℚ} (hbpm : bpm ≠ 0) :
    clock_tick_interval sample_rate bpm = some (sample_rate * 60 / bpm / 1 / 24) := by
  unfold clock_tick_interval samples_per_beat
  rw [if_neg hbpm]
  rfl

theorem before_ticks_last_tick_some (self : Mclk) (inp : Ports)
    (hbpm : (block_transport self inp).bpm ≠ 0) (hfin : self.mclk_last_tick ≠ none) :
    ∃ last, (before_ticks self inp).1.mclk_last_tick = some last := by
  unfold before_ticks
  simp only
  rw [(send_transport_keeps _ _ _ _ _).2.2]
  split_ifs
  · unfold samples_per_beat
    rw [if_neg hbpm]
    exact ⟨_, rfl⟩
  · rw [(send_located_keeps _ _ _ _).2.2.1, (block_transport_keeps self inp).2.2]
    cases h : self.mclk_last_tick with
    | none => exact absurd h hfin
    | some v => exact ⟨v, rfl⟩

/-- With a positive tempo, a positive sample rate and a finite phase
accumulator, `run` returns for enough fuel. -/
theorem run_returns (self : Mclk) (inp : Ports) (hsr : 0 < self.sample_rate)
    (hbpm : 0 < (block_transport self inp).bpm) (hfin : self.mclk_last_tick ≠ none) :
    ∃ fuel r, run fuel self inp = .ok r := by
  obtain ⟨last, hlast⟩ := before_ticks_last_tick_some self inp (ne_of_gt hbpm) hfin
  have hival := clock_tick_interval_some (block_transport self inp).self.sample_rate
    (ne_of_gt hbpm)
  have hpos : 0 < (block_transport self inp).self.sample_rate * 60
      / (block_transport self inp).bpm / 1 / 24 := by
    rw [(block_transport_keeps self inp).1]
    positivity
  obtain ⟨fuel, r, hr⟩ := tick_loop_exists_fuel (before_ticks self inp).1.mode
    (block_transport self inp).bb (block_transport self inp).bpm
    (block_transport self inp).sample_position inp.n_samples hpos last
    (before_ticks self inp).1.last_bcnt 0
  refine ⟨fuel, ?_⟩
  unfold run
  simp only
  split_ifs
  · exact ⟨_, rfl⟩
  · exact ⟨_, rfl⟩
  · rw [hlast, hival]
    simp only [hr]
    exact ⟨_, rfl⟩

/-- C1: for every plugin state (positive sample rate), every effective tempo
`bpm > 0` and every block length `n`, the clock pulses emitted by one call of
`run` have sample offsets that are non-decreasing in emission order, and every
such offset `t` satisfies `0 ≤ t < n`; and such a call returns whenever the
phase accumulator it starts from is finite. -/
theorem run_clock_offsets_sorted_in_block (self : Mclk) (inp : Ports)
    (hsr : 0 < self.sample_rate) (hbpm : 0 < (block_transport self inp).bpm) :
    (self.mclk_last_tick ≠ none → ∃ fuel r, run fuel self inp = .ok r)
    ∧ ∀ fuel r, run fuel self inp = .ok r →
        (clock_offsets r.2.events).Sorted (fun a b => a ≤ b)
        ∧ ∀ t ∈ clock_offsets r.2.events, 0 ≤ t ∧ t < (inp.n_samples : Int) := by
  refine ⟨run_returns self inp hsr hbpm, ?_⟩
  intro fuel r h
  rcases run_ok_cases h with ⟨_, hr⟩ | ⟨_, _, hr⟩ | ⟨_, _, _, last, interval, l1, b1, evs, _, hi, hloop, hr⟩
  · subst hr
    simp [clock_offsets, clock_events]
  · subst hr
    simp [clock_offsets, before_ticks_no_clock]
  · subst hr
    have hpos : 0 < interval := by
      refine clock_tick_interval_pos ?_ hbpm hi
      rw [(block_transport_keeps self inp).1]
      exact hsr
    obtain ⟨hmem, hsorted⟩ := tick_loop_events (le_of_lt hpos) _ _ _ _ _ hloop
    have hoff : clock_offsets ((before_ticks self inp).2 ++ evs)
        = (evs.filter is_clock).map (fun e => e.tme) := by
      have := before_ticks_no_clock self inp
      unfold clock_events at this
      simp [clock_offsets, clock_events, List.filter_append, this]
    simp only [hoff]
    refine ⟨?_, ?_⟩
    · unfold List.Sorted
      rw [List.pairwise_map]
      exact hsorted.filter _
    · intro t ht
      rw [List.mem_map] at ht
      obtain ⟨e, he, rfl⟩ := ht
      have := hmem e (List.mem_filter.mp he).1
      exact ⟨this.2.1, this.2.2⟩

/-- Witness for C1: a fresh instance at 48000 Hz, free-running at 120 bpm
with the transport requested, in a block of 2512 samples. -/
theorem run_clock_offsets_sorted_in_block_witness :
    0 < (instantiate 48000).sample_rate
    ∧ 0 < (block_transport (instantiate 48000) ⟨[], 3, 0, 120, 1, 0, 2512⟩).bpm
    ∧ ((instantiate 48000).mclk_last_tick ≠ none →
        ∃ fuel r, run fuel (instantiate 48000) ⟨[], 3, 0, 120, 1, 0, 2512⟩ = .ok r)
    ∧ ∀ fuel r, run fuel (instantiate 48000) ⟨[], 3, 0, 120, 1, 0, 2512⟩ = .ok r →
        (clock_offsets r.2.events).Sorted (fun a b => a ≤ b)
        ∧ ∀ t ∈ clock_offsets r.2.events, 0 ≤ t ∧ t < ((2512 : Nat) : Int) :=
  ⟨by with_unfolding_all decide, by with_unfolding_all decide,
    run_clock_offsets_sorted_in_block (instantiate 48000) ⟨[], 3, 0, 120, 1, 0, 2512⟩
      (by with_unfolding_all decide) (by with_unfolding_all decide)⟩

/-! ## Free-running blocks and the drift of the pulse count -/

/-- Without a pending resync the tick loop forges clock pulses only, one per
iteration once the first tick is in the block, and stops just before the first
tick at or beyond the end of the block. -/
theorem tick_loop_free {mode : Nat} {bb bpm interval : ℚ} {sample_position : Int}
    {n_samples : Nat} {lb : Int} (hI : 0 ≤ interval) (hlb : lb ≤ 0) :
    ∀ (fuel : Nat) (last : ℚ) (t : Nat) (r : ℚ × Int × List MidiEvent),
      tick_loop mode bb bpm interval sample_position n_samples fuel last lb t = some r →
      0 ≤ llrint (last + interval) - sample_position →
      r.2.1 = lb ∧ (∀ e ∈ r.2.2, is_clock e = true)
        ∧ r.1 = last + (r.2.2.length : ℚ) * interval
        ∧ (n_samples : Int) ≤ llrint (r.1 + interval) - sample_position
        ∧ (r.2.2 ≠ [] → llrint r.1 - sample_position < n_samples) := by
  intro fuel
  induction fuel with
  | zero => intro last t r h; simp [tick_loop] at h
  | succ fuel ih =>
    intro last t r h h0
    rw [tick_loop_succ] at h
    have hc : send_continue mode bb bpm lb t (llrint (last + interval) - sample_position)
        = (lb, []) := by
      rw [send_continue, if_neg]
      intro hcon
      omega
    split_ifs at h with h1
    · cases h
      refine ⟨rfl, by simp, by simp, h1, by simp⟩
    · rw [hc] at h
      cases hrec : tick_loop mode bb bpm interval sample_position n_samples fuel
          (last + interval) lb (t + 1) with
      | none => simp [hrec] at h
      | some r1 =>
        obtain ⟨l1, b1, evs⟩ := r1
        simp only [hrec, Option.some.injEq, List.nil_append] at h
        subst h
        have hstep : llrint (last + interval) ≤ llrint (last + interval + interval) :=
          rint_mono (by linarith)
        obtain ⟨hb, hclk, hl, hend, hlast⟩ := ih _ _ _ hrec (by omega)
        simp only at hb hclk hl hend hlast
        refine ⟨hb, ?_, ?_, hend, ?_⟩
        · intro e he
          rcases List.mem_cons.mp he with he | he
          · rw [he]; rfl
          · exact hclk e he
        · simp only [List.length_cons, Nat.cast_add, Nat.cast_one]
          rw [hl]; ring
        · intro _
          by_cases hev : evs = []
          · rw [hl, hev]
            simp only [List.length_nil, Nat.cast_zero, zero_mul, add_zero]
            omega
          · exact hlast hev

/-- The pulse count `K` after `T` samples is within one of `round (T / interval)`
when the interval is at least one sample: the next tick, number `K + 1`, is
not before `T` and the last tick, number `K`, is before `T`. -/
theorem drift_arith (I : ℚ) (hI : 1 ≤ I) (K : Nat) (T : Int) (hT : 0 ≤ T)
    (h1 : T ≤ rint (((K : ℚ) + 1) * I)) (h2 : 1 ≤ K → rint ((K : ℚ) * I) < T) :
    |(K : Int) - round ((T : ℚ) / I)| ≤ 1 := by
  have hIpos : 0 < I := by linarith
  have hr := abs_sub_round ((T : ℚ) / I)
  rw [abs_le] at hr
  have hup : (T : ℚ) / I < (K : ℚ) + 3 / 2 := by
    rw [div_lt_iff₀ hIpos]
    have h3 : (T : ℚ) ≤ ((K : ℚ) + 1) * I + 1 / 2 :=
      le_trans (by exact_mod_cast h1) (rint_le _)
    rcases eq_or_lt_of_le hI with hI1 | hI1
    · rw [← hI1] at h3 ⊢
      have h4 : (T : ℚ) ≤ (K : ℚ) + 1 := by
        have h5 : (T : ℚ) < (((K : Int) + 2 : Int) : ℚ) := by
          push_cast; linarith
        have h6 : T < (K : Int) + 2 := by exact_mod_cast h5
        have h7 : T ≤ (K : Int) + 1 := by omega
        exact_mod_cast h7
      linarith
    · nlinarith
  have hlo : (K : ℚ) ≤ (T : ℚ) / I := by
    rcases Nat.eq_zero_or_pos K with hK | hK
    · rw [hK]
      have : (0 : ℚ) ≤ (T : ℚ) := by exact_mod_cast hT
      simp only [Nat.cast_zero]
      positivity
    · rw [le_div_iff₀ hIpos]
      have h3 := h2 hK
      have h4 : rint ((K : ℚ) * I) ≤ T - 1 := by omega
      have h5 : (rint ((K : ℚ) * I) : ℚ) ≤ (T : ℚ) - 1 := by exact_mod_cast h4
      have h6 := le_rint ((K : ℚ) * I)
      linarith
  have hub : (round ((T : ℚ) / I) : ℚ) < (((K : Int) + 2 : Int) : ℚ) := by
    push_cast; linarith [hr.1]
  have hlb : (((K : Int) - 1 : Int) : ℚ) < (round ((T : ℚ) / I) : ℚ) := by
    push_cast; linarith [hr.2]
  have hub1 : round ((T : ℚ) / I) < (K : Int) + 2 := by exact_mod_cast hub
  have hlb1 : (K : Int) - 1 < round ((T : ℚ) / I) := by exact_mod_cast hlb
  rw [abs_le]
  constructor <;> omega

theorem update_position_host_info (self self1 : Mclk) (obj : PositionObject)
    (h : self.host_info = self1.host_info) :
    (update_position self obj).host_info = (update_position self1 obj).host_info := by
  unfold update_position
  split <;> simp [h]

theorem process_control_host_info (control : List ControlEvent) :
    ∀ self self1 : Mclk, self.host_info = self1.host_info →
      (process_control self control).host_info = (process_control self1 control).host_info := by
  induction control with
  | nil => intro self self1 h; exact h
  | cons ev rest ih =>
    intro self self1 h
    cases ev with
    | position obj => exact ih _ _ (update_position_host_info self self1 obj h)
    | other => exact ih _ _ h

theorem free_running_host_info (inps : List Ports) :
    ∀ self self1 : Mclk, self.host_info = self1.host_info →
      free_running self inps = free_running self1 inps := by
  induction inps with
  | nil => intro self self1 _; rfl
  | cons inp rest ih =>
    intro self self1 h
    have h1 := process_control_host_info inp.control self self1 h
    simp only [free_running]
    rw [h1, ih _ _ h1]

theorem next_cycle_free (self : Mclk) (inp : Ports) (bpm : ℚ)
    (hint : ¬ (self.host_info = true ∧ inp.p_sync > 0)) :
    (next_cycle self inp true bpm).sample_pos = self.sample_pos + (inp.n_samples : Int)
      ∧ (next_cycle self inp true bpm).rolling = self.rolling
      ∧ (next_cycle self inp true bpm).mclk_last_tick = self.mclk_last_tick
      ∧ (next_cycle self inp true bpm).last_bcnt = self.last_bcnt
      ∧ (next_cycle self inp true bpm).sample_rate = self.sample_rate
      ∧ (next_cycle self inp true bpm).host_info = self.host_info := by
  unfold next_cycle
  by_cases hh : self.host_info = true
  · have hs : ¬ inp.p_sync > 0 := fun hc => hint ⟨hh, hc⟩
    simp [hh, hs]
  · simp [hh]

theorem set_transport_free (self : Mclk) (inp : Ports)
    (hint : ¬ (self.host_info = true ∧ inp.p_sync > 0))
    (hrew : inp.p_rewind ≤ 0) :
    set_transport self inp
      = ⟨self, if self.host_info = true then -1 else 0, inp.p_bpm, self.sample_pos,
          decide (inp.p_transport > 0), self.bb, false⟩ := by
  have hrew1 : ¬ inp.p_rewind > 0 := not_lt.mpr hrew
  unfold set_transport
  rw [if_neg hint]
  simp only [if_neg hrew1]

theorem send_located_rolling (self : Mclk) (bb bpm : ℚ) :
    send_located self true bb bpm = (self, []) := by
  unfold send_located
  simp

theorem send_transport_same (self : Mclk) (rolling : Bool) (bb bpm : ℚ) (spb : Option ℚ)
    (h : rolling = self.rolling) : send_transport self rolling bb bpm spb = (self, []) := by
  unfold send_transport
  simp [h]

theorem send_transport_start (self : Mclk) (bb bpm : ℚ) (spb : Option ℚ)
    (h : self.rolling = false) (hb : bb = 0 ∨ self.mode &&& MSG_NO_POSITION ≠ 0) :
    send_transport self true bb bpm spb
      = ({ self with last_bcnt := -1, mclk_last_tick := spb.map (fun x => x * bb) },
          if self.mode &&& MSG_NO_TRANSPORT = 0 then [send_rt_message 0 MIDI_RT_START]
          else []) := by
  unfold send_transport
  have h1 : (true ≠ self.rolling) := by rw [h]; decide
  simp only [if_pos h1, if_pos hb, if_true]

/-- A free-running block with the transport requested and no rewind: the
locals of `run`. -/
theorem block_transport_free (self : Mclk) (inp : Ports)
    (hint : ¬ ((process_control self inp.control).host_info = true ∧ inp.p_sync > 0))
    (hrew : inp.p_rewind ≤ 0) (htr : 0 < inp.p_transport) :
    block_transport self inp
      = ⟨{ process_control self inp.control with mode := set_mode inp.p_mode },
          if (process_control self inp.control).host_info = true then -1 else 0, inp.p_bpm,
          (process_control self inp.control).sample_pos, true,
          (process_control self inp.control).bb, false⟩ := by
  unfold block_transport
  rw [set_transport_free { process_control self inp.control with mode := set_mode inp.p_mode }
    inp hint hrew]
  simp [htr]

/-- A free-running block that continues rolling: nothing is forged before
the tick loop. -/
theorem before_ticks_free_rolling (self : Mclk) (inp : Ports)
    (hint : ¬ ((process_control self inp.control).host_info = true ∧ inp.p_sync > 0))
    (hrew : inp.p_rewind ≤ 0) (htr : 0 < inp.p_transport) (hr : self.rolling = true) :
    before_ticks self inp
      = ({ process_control self inp.control with mode := set_mode inp.p_mode, rolling := true },
          []) := by
  have k3 := (process_control_keeps inp.control self).2.2.1
  unfold before_ticks
  rw [block_transport_free self inp hint hrew htr]
  simp only [send_located_rolling, List.nil_append]
  rw [send_transport_same _ _ _ _ _ (by simp [k3, hr])]

/-- A free-running block that starts rolling at the song origin: the phase
accumulator is reset and no resync is pending. -/
theorem before_ticks_free_start (self : Mclk) (inp : Ports)
    (hint : ¬ ((process_control self inp.control).host_info = true ∧ inp.p_sync > 0))
    (hrew : inp.p_rewind ≤ 0) (htr : 0 < inp.p_transport) (hr : self.rolling = false)
    (hbb : self.bb = 0) :
    before_ticks self inp
      = ({ process_control self inp.control with
            mode := set_mode inp.p_mode
            last_bcnt := -1
            mclk_last_tick := (samples_per_beat self.sample_rate inp.p_bpm).map (fun x => x * 0)
            rolling := true },
          if set_mode inp.p_mode &&& MSG_NO_TRANSPORT = 0 then [send_rt_message 0 MIDI_RT_START]
          else []) := by
  obtain ⟨k1, _, k3, k4, _, _, _⟩ := process_control_keeps inp.control self
  unfold before_ticks
  rw [block_transport_free self inp hint hrew htr]
  simp only [send_located_rolling, List.nil_append]
  rw [send_transport_start _ _ _ _ (by simp [k3, hr]) (Or.inl (by rw [k4, hbb]))]
  simp only [k1, k4, hbb]

theorem clock_events_of_clocks (pre evs : List MidiEvent) (hpre : clock_events pre = [])
    (h : ∀ e ∈ evs, is_clock e = true) : clock_events (pre ++ evs) = evs := by
  unfold clock_events at hpre ⊢
  rw [List.filter_append, hpre, List.nil_append]
  exact List.filter_eq_self.mpr h

/-- The state before the tick loop of a free-running block with the transport
requested, entered at the stopped origin or rolling on the tick grid. -/
theorem before_ticks_free_facts {self : Mclk} {inp : Ports} {K : Nat} {P : Int}
    (hrate : 0 < self.sample_rate) (hbpm : 0 < inp.p_bpm)
    (hint : ¬ ((process_control self inp.control).host_info = true ∧ inp.p_sync > 0))
    (hrew : inp.p_rewind ≤ 0) (htr : 0 < inp.p_transport)
    (hs : (self.rolling = false ∧ self.bb = 0 ∧ self.sample_pos = 0 ∧ K = 0 ∧ P = 0)
      ∨ rolling_at (self.sample_rate * 60 / inp.p_bpm / 1 / 24) K P self) :
    (before_ticks self inp).1.mclk_last_tick
        = some ((K : ℚ) * (self.sample_rate * 60 / inp.p_bpm / 1 / 24))
      ∧ (before_ticks self inp).1.last_bcnt ≤ 0
      ∧ self.sample_pos = P
      ∧ (before_ticks self inp).1.rolling = true
      ∧ (before_ticks self inp).1.sample_rate = self.sample_rate
      ∧ (before_ticks self inp).1.host_info = (process_control self inp.control).host_info
      ∧ P ≤ llrint (((K : ℚ) + 1) * (self.sample_rate * 60 / inp.p_bpm / 1 / 24))
      ∧ (1 ≤ K → llrint ((K : ℚ) * (self.sample_rate * 60 / inp.p_bpm / 1 / 24)) < P) := by
  obtain ⟨k1, k2, k3, k4, k5, k6, k7⟩ := process_control_keeps inp.control self
  have hI : 0 < self.sample_rate * 60 / inp.p_bpm / 1 / 24 := by positivity
  rcases hs with ⟨hr, hbb, hsp, hK, hP⟩ | ⟨hr, hsp, hl, hb, hn, hp⟩
  · rw [before_ticks_free_start self inp hint hrew htr hr hbb]
    subst hK hP
    refine ⟨?_, by simp, hsp, rfl, k1, rfl, ?_, by simp⟩
    · simp [samples_per_beat, ne_of_gt hbpm]
    · have h0 : llrint (((0 : Int) : ℚ)) = 0 := rint_intCast 0
      have h1 : llrint (((0 : Int) : ℚ))
          ≤ llrint ((((0 : Nat) : ℚ) + 1) * (self.sample_rate * 60 / inp.p_bpm / 1 / 24)) :=
        rint_mono (by simp only [Nat.cast_zero, Int.cast_zero, zero_add, one_mul]
                      exact le_of_lt hI)
      omega
  · rw [before_ticks_free_rolling self inp hint hrew htr hr]
    exact ⟨by simp [k7, hl], by simp [k5, hb], hsp, rfl, k1, rfl, hn, hp⟩

/-- One free-running block with the transport requested, from the stopped
origin or from a rolling state on the tick grid: afterwards the instance is
rolling on the same grid, advanced by the pulses of the block. -/
theorem run_free_step {fuel : Nat} {self : Mclk} {inp : Ports} {r : Mclk × Output}
    {K : Nat} {P : Int}
    (hrate : 0 < self.sample_rate) (hbpm : 0 < inp.p_bpm)
    (hint : ¬ ((process_control self inp.control).host_info = true ∧ inp.p_sync > 0))
    (hrew : inp.p_rewind ≤ 0) (htr : 0 < inp.p_transport)
    (hclk : set_mode inp.p_mode &&& MSG_NO_CLOCK = 0)
    (hs : (self.rolling = false ∧ self.bb = 0 ∧ self.sample_pos = 0 ∧ K = 0 ∧ P = 0)
      ∨ rolling_at (self.sample_rate * 60 / inp.p_bpm / 1 / 24) K P self)
    (h : run fuel self inp = .ok r) :
    rolling_at (self.sample_rate * 60 / inp.p_bpm / 1 / 24)
        (K + (clock_events r.2.events).length) (P + (inp.n_samples : Int)) r.1
      ∧ r.1.sample_rate = self.sample_rate
      ∧ r.1.host_info = (process_control self inp.control).host_info := by
  obtain ⟨k1, k2, k3, k4, k5, k6, k7⟩ := process_control_keeps inp.control self
  have hI : 0 < self.sample_rate * 60 / inp.p_bpm / 1 / 24 := by positivity
  have ht := block_transport_free self inp hint hrew htr
  have hnoclk := before_ticks_no_clock self inp
  obtain ⟨p1, p2, hP, p4, p5, p6, p7, p8⟩ := before_ticks_free_facts hrate hbpm hint hrew htr hs
  have hmode := before_ticks_mode self inp
  rcases run_ok_cases h with ⟨hrev, _⟩ | ⟨_, hno, _⟩
    | ⟨_, _, _, last, interval, l1, b1, evs, hl, hi, hloop, hr⟩
  · rw [ht] at hrev
    cases hrev
  · rw [ht, hmode] at hno
    rcases hno with hno | hno
    · cases hno
    · exact absurd hclk hno
  · rw [ht] at hi hloop hr
    simp only at hi hloop hr
    rw [k1, clock_tick_interval_some self.sample_rate (ne_of_gt hbpm)] at hi
    cases hi
    rw [p1] at hl
    cases hl
    rw [k6] at hloop
    have hsp : (before_ticks self inp).1.sample_pos = self.sample_pos := by
      rcases hs with ⟨hr0, hbb, _, _, _⟩ | ⟨hr0, _, _, _, _, _⟩
      · rw [before_ticks_free_start self inp hint hrew htr hr0 hbb]; exact k6
      · rw [before_ticks_free_rolling self inp hint hrew htr hr0]; exact k6
    rw [hP] at hloop
    have hfirst : 0 ≤ llrint ((K : ℚ) * (self.sample_rate * 60 / inp.p_bpm / 1 / 24)
        + self.sample_rate * 60 / inp.p_bpm / 1 / 24) - P := by
      have e : (K : ℚ) * (self.sample_rate * 60 / inp.p_bpm / 1 / 24)
          + self.sample_rate * 60 / inp.p_bpm / 1 / 24
          = ((K : ℚ) + 1) * (self.sample_rate * 60 / inp.p_bpm / 1 / 24) := by ring
      rw [e]; omega
    obtain ⟨f1, f2, f3, f4, f5⟩ := tick_loop_free (le_of_lt hI) p2 _ _ _ _ hloop hfirst
    simp only at f1 f2 f3 f4 f5
    have hnc := next_cycle_free
      { (before_ticks self inp).1 with mclk_last_tick := some l1, last_bcnt := b1 } inp
      inp.p_bpm (by simpa [p6] using hint)
    obtain ⟨n1, n2, n3, n4, n5, n6⟩ := hnc
    have hce : clock_events ((before_ticks self inp).2 ++ evs) = evs :=
      clock_events_of_clocks _ _ hnoclk f2
    subst hr
    simp only [hce]
    refine ⟨⟨?_, ?_, ?_, ?_, ?_, ?_⟩, ?_, ?_⟩
    · rw [n2]; exact p4
    · rw [n1]; simp only; rw [hsp, hP]
    · rw [n3]; simp only
      rw [f3]; push_cast; ring_nf
    · rw [n4]; simp only; rw [f1]; exact p2
    · have e : ((((K + evs.length : Nat)) : ℚ) + 1) * (self.sample_rate * 60 / inp.p_bpm / 1 / 24)
          = l1 + self.sample_rate * 60 / inp.p_bpm / 1 / 24 := by
        rw [f3]; push_cast; ring
      rw [e]; omega
    · intro hK
      by_cases hev : evs = []
      · have hK1 : 1 ≤ K := by simpa [hev] using hK
        have := p8 hK1
        simp only [hev, List.length_nil, add_zero]
        omega
      · have e : (((K + evs.length : Nat)) : ℚ) * (self.sample_rate * 60 / inp.p_bpm / 1 / 24)
            = l1 := by
          rw [f3]; push_cast; ring
        rw [e]
        have := f5 hev
        omega
    · rw [n5]; exact p5
    · rw [n6]; exact p6

/-- A call of `run` returns when the fuel covers the ticks up to the end of
the block. -/
theorem run_returns_of_fuel (fuel : Nat) (self : Mclk) (inp : Ports) (last interval : ℚ)
    (hl : (before_ticks self inp).1.mclk_last_tick = some last)
    (hi : clock_tick_interval (block_transport self inp).self.sample_rate
      (block_transport self inp).bpm = some interval)
    (hf : (inp.n_samples : ℚ) + (block_transport self inp).sample_position + 1 - last
      ≤ ((fuel : ℚ) + 1) * interval) :
    ∃ r, run (fuel + 1) self inp = .ok r := by
  obtain ⟨r, hr⟩ := tick_loop_terminates (before_ticks self inp).1.mode
    (block_transport self inp).bb (block_transport self inp).bpm fuel last
    (before_ticks self inp).1.last_bcnt 0 hf
  unfold run
  simp only
  split_ifs
  · exact ⟨_, rfl⟩
  · exact ⟨_, rfl⟩
  · rw [hl, hi]
    simp only [hr]
    exact ⟨_, rfl⟩

/-- One free-running block with a tick interval of at least one sample returns
with fuel for the block length plus three iterations. -/
theorem run_free_returns {fuel : Nat} {self : Mclk} {inp : Ports} {K : Nat} {P : Int}
    (hrate : 0 < self.sample_rate) (hbpm : 0 < inp.p_bpm)
    (hI : 1 ≤ self.sample_rate * 60 / inp.p_bpm / 1 / 24)
    (hint : ¬ ((process_control self inp.control).host_info = true ∧ inp.p_sync > 0))
    (hrew : inp.p_rewind ≤ 0) (htr : 0 < inp.p_transport)
    (hs : (self.rolling = false ∧ self.bb = 0 ∧ self.sample_pos = 0 ∧ K = 0 ∧ P = 0)
      ∨ rolling_at (self.sample_rate * 60 / inp.p_bpm / 1 / 24) K P self)
    (hfuel : inp.n_samples + 3 ≤ fuel) :
    ∃ r, run fuel self inp = .ok r := by
  obtain ⟨k1, k2, k3, k4, k5, k6, k7⟩ := process_control_keeps inp.control self
  obtain ⟨p1, p2, hP, p4, p5, p6, p7, p8⟩ := before_ticks_free_facts hrate hbpm hint hrew htr hs
  have ht := block_transport_free self inp hint hrew htr
  obtain ⟨m, rfl⟩ : ∃ m, fuel = m + 1 := ⟨fuel - 1, by omega⟩
  refine run_returns_of_fuel m self inp _ (self.sample_rate * 60 / inp.p_bpm / 1 / 24) p1 ?_ ?_
  · rw [ht]
    simp only
    rw [k1]
    exact clock_tick_interval_some self.sample_rate (ne_of_gt hbpm)
  · rw [ht]
    simp only
    rw [k6, hP]
    have h1 := rint_le (((K : ℚ) + 1) * (self.sample_rate * 60 / inp.p_bpm / 1 / 24))
    have h2 : (P : ℚ) ≤ (llrint (((K : ℚ) + 1)
        * (self.sample_rate * 60 / inp.p_bpm / 1 / 24)) : ℚ) := by exact_mod_cast p7
    unfold llrint at h2
    have h3 : (inp.n_samples : ℚ) + 3 ≤ (m : ℚ) + 1 := by exact_mod_cast hfuel
    have h4 : (0 : ℚ) ≤ (inp.n_samples : ℚ) := Nat.cast_nonneg _
    nlinarith

theorem run_blocks_cons_ok {fuel : Nat} {self : Mclk} {inp : Ports} {rest : List Ports}
    {r : Mclk × List Output} (h : run_blocks fuel self (inp :: rest) = .ok r) :
    ∃ s1 out s2 outs, run fuel self inp = .ok (s1, out)
      ∧ run_blocks fuel s1 rest = .ok (s2, outs) ∧ r = (s2, out :: outs) := by
  rw [run_blocks] at h
  split at h
  · cases h
  · rename_i s1 out h1
    split at h
    · cases h
    · rename_i s2 outs h2
      exact ⟨s1, out, s2, outs, h1, h2, (Except.ok.inj h).symm⟩

/-- Free-running blocks with the transport requested, at a constant tempo with
a tick interval of at least one sample: the blocks return, and the instance
stays on the tick grid, advanced by the pulses emitted. -/
theorem run_blocks_free (rate bpm : ℚ) (hrate : 0 < rate) (hbpm : 0 < bpm)
    (hI : 1 ≤ rate * 60 / bpm / 1 / 24) :
    ∀ (inps : List Ports) (self : Mclk) (K : Nat) (P : Int),
      (∀ inp ∈ inps, inp.p_bpm = bpm ∧ inp.p_rewind ≤ 0 ∧ 0 < inp.p_transport
        ∧ set_mode inp.p_mode &&& MSG_NO_CLOCK = 0) →
      self.sample_rate = rate →
      free_running self inps = true →
      ((self.rolling = false ∧ self.bb = 0 ∧ self.sample_pos = 0 ∧ K = 0 ∧ P = 0)
        ∨ rolling_at (rate * 60 / bpm / 1 / 24) K P self) →
      (∀ fuel, (∀ inp ∈ inps, inp.n_samples + 3 ≤ fuel) →
          ∃ r, run_blocks fuel self inps = .ok r)
      ∧ ∀ fuel r, run_blocks fuel self inps = .ok r →
          ((r.1.rolling = false ∧ r.1.bb = 0 ∧ r.1.sample_pos = 0
              ∧ K + total_clocks r.2 = 0 ∧ P + (total_samples inps : Int) = 0)
            ∨ rolling_at (rate * 60 / bpm / 1 / 24) (K + total_clocks r.2)
                (P + (total_samples inps : Int)) r.1) := by
  intro inps
  induction inps with
  | nil =>
    intro self K P _ _ _ hs
    refine ⟨fun fuel _ => ⟨_, rfl⟩, ?_⟩
    intro fuel r h
    cases h
    simpa [total_clocks, total_samples] using hs
  | cons inp rest ih =>
    intro self K P hblocks hsr hfree hs
    obtain ⟨hb, hrew, htr, hclk⟩ := hblocks inp (List.mem_cons_self _ _)
    have hrest : ∀ i ∈ rest, i.p_bpm = bpm ∧ i.p_rewind ≤ 0 ∧ 0 < i.p_transport
        ∧ set_mode i.p_mode &&& MSG_NO_CLOCK = 0 :=
      fun i hi => hblocks i (List.mem_cons_of_mem _ hi)
    simp only [free_running, Bool.and_eq_true, Bool.not_eq_true', decide_eq_false_iff_not]
      at hfree
    obtain ⟨hint, hfree1⟩ := hfree
    have hrate1 : 0 < self.sample_rate := by rw [hsr]; exact hrate
    have hbpm1 : 0 < inp.p_bpm := by rw [hb]; exact hbpm
    have hs1 : (self.rolling = false ∧ self.bb = 0 ∧ self.sample_pos = 0 ∧ K = 0 ∧ P = 0)
        ∨ rolling_at (self.sample_rate * 60 / inp.p_bpm / 1 / 24) K P self := by
      rw [hsr, hb]; exact hs
    have hI1 : 1 ≤ self.sample_rate * 60 / inp.p_bpm / 1 / 24 := by rw [hsr, hb]; exact hI
    -- what one block gives
    have hstep : ∀ fuel s1 out, run fuel self inp = .ok (s1, out) →
        rolling_at (rate * 60 / bpm / 1 / 24) (K + (clock_events out.events).length)
            (P + (inp.n_samples : Int)) s1
          ∧ s1.sample_rate = rate ∧ free_running s1 rest = true := by
      intro fuel s1 out h1
      obtain ⟨a1, a2, a3⟩ := run_free_step hrate1 hbpm1 hint hrew htr hclk hs1 h1
      rw [hsr, hb] at a1
      refine ⟨a1, by rw [a2, hsr], ?_⟩
      rw [free_running_host_info rest s1 (process_control self inp.control) a3]
      exact hfree1
    refine ⟨?_, ?_⟩
    · intro fuel hfuel
      obtain ⟨⟨s1, out⟩, h1⟩ := run_free_returns hrate1 hbpm1 hI1 hint hrew htr hs1
        (hfuel inp (List.mem_cons_self _ _))
      obtain ⟨b1, b2, b3⟩ := hstep fuel s1 out h1
      obtain ⟨⟨s2, outs⟩, h2⟩ := (ih s1 _ _ hrest b2 b3 (Or.inr b1)).1 fuel
        (fun i hi => hfuel i (List.mem_cons_of_mem _ hi))
      refine ⟨(s2, out :: outs), ?_⟩
      rw [run_blocks, h1]
      simp only [h2]
    · intro fuel r h
      obtain ⟨s1, out, s2, outs, h1, h2, hr⟩ := run_blocks_cons_ok h
      obtain ⟨b1, b2, b3⟩ := hstep fuel s1 out h1
      have := (ih s1 _ _ hrest b2 b3 (Or.inr b1)).2 fuel _ h2
      subst hr
      have e1 : K + total_clocks (out :: outs)
          = K + (clock_events out.events).length + total_clocks outs := by
        simp [total_clocks, Nat.add_assoc]
      have e2 : P + (total_samples (inp :: rest) : Int)
          = P + (inp.n_samples : Int) + (total_samples rest : Int) := by
        simp [total_samples, add_assoc]
      simp only at this ⊢
      rw [e1, e2]
      exact this

/-- C2 (as amended): starting from a stopped transport at bar_beat 0 and sample
position 0, over free-running blocks with clock pulses enabled, the transport
requested, no rewind and a constant tempo `bpm > 0` whose tick interval
`sample_rate * 60 / bpm / 24` is at least one sample, the blocks return (fuel
for the longest block plus three iterations is enough) and the total number of
clock pulses differs from `round (D * bpm * 24 / 60)` by at most 1, where
`D = (sum of the block lengths) / sample_rate`. -/
theorem run_blocks_drift_bound (rate bpm : ℚ) (inps : List Ports) (self : Mclk)
    (hrate : 0 < rate) (hbpm : 0 < bpm) (hI : 1 ≤ rate * 60 / bpm / 24)
    (hblocks : ∀ inp ∈ inps, inp.p_bpm = bpm ∧ inp.p_rewind ≤ 0 ∧ 0 < inp.p_transport
      ∧ set_mode inp.p_mode &&& MSG_NO_CLOCK = 0)
    (hfree : free_running self inps = true)
    (hstart : self.rolling = false ∧ self.bb = 0 ∧ self.sample_pos = 0
      ∧ self.sample_rate = rate) :
    (∃ fuel r, run_blocks fuel self inps = .ok r)
    ∧ ∀ fuel r, run_blocks fuel self inps = .ok r →
        |(total_clocks r.2 : Int)
          - round ((total_samples inps : ℚ) / rate * bpm * 24 / 60)| ≤ 1 := by
  obtain ⟨hr, hbb, hsp, hsr⟩ := hstart
  have hI1 : 1 ≤ rate * 60 / bpm / 1 / 24 := by rw [div_one]; exact hI
  obtain ⟨hex, hall⟩ := run_blocks_free rate bpm hrate hbpm hI1 inps self 0 0 hblocks hsr hfree
    (Or.inl ⟨hr, hbb, hsp, rfl, rfl⟩)
  refine ⟨?_, ?_⟩
  · refine ⟨total_samples inps + 3, hex _ ?_⟩
    intro inp hin
    have : inp.n_samples ≤ total_samples inps :=
      List.single_le_sum (fun _ _ => Nat.zero_le _) _ (List.mem_map_of_mem _ hin)
    omega
  · intro fuel r h
    have hIpos : 0 < rate * 60 / bpm / 1 / 24 := by positivity
    have hexp : (total_samples inps : ℚ) / rate * bpm * 24 / 60
        = (((total_samples inps : Int)) : ℚ) / (rate * 60 / bpm / 1 / 24) := by
      push_cast
      field_simp
      ring
    rw [hexp]
    have hgrid : (total_samples inps : Int)
          ≤ rint (((total_clocks r.2 : ℚ) + 1) * (rate * 60 / bpm / 1 / 24))
        ∧ (1 ≤ total_clocks r.2 →
          rint ((total_clocks r.2 : ℚ) * (rate * 60 / bpm / 1 / 24))
            < (total_samples inps : Int)) := by
      rcases hall fuel r h with ⟨_, _, _, hK, hP⟩ | ⟨_, _, _, _, hn, hp⟩
      · simp only [zero_add] at hK hP
        rw [hK]
        refine ⟨?_, by simp⟩
        have h0 : rint (((0 : Int) : ℚ)) = 0 := rint_intCast 0
        have h1 : rint (((0 : Int) : ℚ))
            ≤ rint ((((0 : Nat) : ℚ) + 1) * (rate * 60 / bpm / 1 / 24)) :=
          rint_mono (by simp only [Nat.cast_zero, Int.cast_zero, zero_add, one_mul]
                        exact le_of_lt hIpos)
        omega
      · simp only [zero_add] at hn hp
        exact ⟨hn, hp⟩
    exact drift_arith _ hI1 _ _ (Int.natCast_nonneg _) hgrid.1 hgrid.2

/-- Witness for C2 (as amended): a fresh instance at 48000 Hz, free-running
at 120 bpm with the transport requested, over blocks of 512, 1024 and 976
samples. -/
theorem run_blocks_drift_bound_witness :
    (∃ fuel r, run_blocks fuel (instantiate 48000)
        [⟨[], 3, 0, 120, 1, 0, 512⟩, ⟨[], 3, 0, 120, 1, 0, 1024⟩, ⟨[], 3, 0, 120, 1, 0, 976⟩]
        = .ok r)
    ∧ ∀ fuel r, run_blocks fuel (instantiate 48000)
        [⟨[], 3, 0, 120, 1, 0, 512⟩, ⟨[], 3, 0, 120, 1, 0, 1024⟩, ⟨[], 3, 0, 120, 1, 0, 976⟩]
        = .ok r →
        |(total_clocks r.2 : Int)
          - round ((total_samples
              [⟨[], 3, 0, 120, 1, 0, 512⟩, ⟨[], 3, 0, 120, 1, 0, 1024⟩,
                ⟨[], 3, 0, 120, 1, 0, 976⟩] : ℚ) / 48000 * 120 * 24 / 60)| ≤ 1 :=
  run_blocks_drift_bound 48000 120
    [⟨[], 3, 0, 120, 1, 0, 512⟩, ⟨[], 3, 0, 120, 1, 0, 1024⟩, ⟨[], 3, 0, 120, 1, 0, 976⟩]
    (instantiate 48000) (by norm_num) (by norm_num) (by norm_num)
    (by
      intro inp h
      simp only [List.mem_cons, List.mem_singleton, List.not_mem_nil, or_false] at h
      rcases h with rfl | rfl | rfl <;> with_unfolding_all decide)
    (by with_unfolding_all decide)
    ⟨rfl, rfl, rfl, rfl⟩

/-- C2 fails as stated: a fresh instance at 48000 Hz, free-running at
480000 bpm (a tick every quarter sample), emits 29 clock pulses in one block
of 8 samples, where `round (D * bpm * 24 / 60) = 32`. -/
theorem run_blocks_drift_counterexample :
    (run_blocks 40 (instantiate 48000) [⟨[], 3, 0, 480000, 1, 0, 8⟩]).toOption.map
        (fun r => total_clocks r.2) = some 29
    ∧ round ((total_samples [⟨[], 3, 0, 480000, 1, 0, 8⟩] : ℚ) / 48000 * 480000 * 24 / 60)
        = (32 : Int) := by
  constructor
  · with_unfolding_all decide
  · with_unfolding_all decide

/-! ## Message classes and the mode mask -/

theorem next_cycle_keeps (self : Mclk) (inp : Ports) (rolling : Bool) (bpm : ℚ) :
    (next_cycle self inp rolling bpm).mode = self.mode
      ∧ (next_cycle self inp rolling bpm).rolling = self.rolling
      ∧ (next_cycle self inp rolling bpm).last_bcnt = self.last_bcnt
      ∧ (next_cycle self inp rolling bpm).mclk_last_tick = self.mclk_last_tick
      ∧ (next_cycle self inp rolling bpm).sample_rate = self.sample_rate
      ∧ (next_cycle self inp rolling bpm).host_info = self.host_info := by
  unfold next_cycle
  simp only
  split_ifs <;> simp

/-- Every event of the tick loop is a clock pulse, or a continue message,
which needs song-position and transport messages enabled. -/
theorem tick_loop_classes {mode : Nat} {bb bpm interval : ℚ} {sample_position : Int}
    {n_samples : Nat} :
    ∀ (fuel : Nat) (last : ℚ) (lb : Int) (t : Nat) (r : ℚ × Int × List MidiEvent),
      tick_loop mode bb bpm interval sample_position n_samples fuel last lb t = some r →
      ∀ e ∈ r.2.2, is_clock e = true
        ∨ (e.bytes = [MIDI_RT_CONTINUE] ∧ mode &&& MSG_NO_POSITION = 0
            ∧ mode &&& MSG_NO_TRANSPORT = 0) := by
  intro fuel
  induction fuel with
  | zero => intro last lb t r h; simp [tick_loop] at h
  | succ fuel ih =>
    intro last lb t r h
    rw [tick_loop_succ] at h
    split_ifs at h with h1 h2
    · cases h; simp
    · cases hrec : tick_loop mode bb bpm interval sample_position n_samples fuel
          (last + interval)
          (send_continue mode bb bpm lb t (llrint (last + interval) - sample_position)).1
          (t + 1) with
      | none => simp [hrec] at h
      | some r1 =>
        obtain ⟨l1, b1, evs⟩ := r1
        simp only [hrec, Option.some.injEq] at h
        subst h
        intro e he
        simp only [List.mem_append, List.mem_cons] at he
        rcases he with he | he | he
        · obtain ⟨c1, _, c3, c4⟩ := send_continue_events mode bb bpm lb t _ e he
          right
          rw [c1]
          exact ⟨rfl, c3, c4⟩
        · left; rw [he]; rfl
        · exact ih _ _ _ _ hrec e he
    · exact ih _ _ _ _ h

/-- Every event of a call of `run` belongs to a message class that the mode
mask of the block enables: a song-position message, a transport message
(a continue from the tick loop also needs song-position messages enabled), or
a clock pulse. -/
theorem run_events_classes {fuel : Nat} {self : Mclk} {inp : Ports} {r : Mclk × Output}
    (h : run fuel self inp = .ok r) :
    ∀ e ∈ r.2.events,
      (is_song_position e = true ∧ set_mode inp.p_mode &&& MSG_NO_POSITION = 0)
      ∨ (is_transport e = true ∧ set_mode inp.p_mode &&& MSG_NO_TRANSPORT = 0)
      ∨ (is_clock e = true ∧ set_mode inp.p_mode &&& MSG_NO_CLOCK = 0) := by
  intro e he
  have hpre := before_ticks_events self inp e
  have hmode := before_ticks_mode self inp
  rcases run_ok_cases h with ⟨_, hr⟩ | ⟨_, _, hr⟩
    | ⟨_, _, hclk, last, interval, l1, b1, evs, _, _, hloop, hr⟩
  · subst hr
    exact absurd he (List.not_mem_nil _)
  · subst hr
    rcases (hpre he).2 with h1 | h1
    · exact Or.inl h1
    · exact Or.inr (Or.inl h1)
  · subst hr
    rcases List.mem_append.mp he with he | he
    · rcases (hpre he).2 with h1 | h1
      · exact Or.inl h1
      · exact Or.inr (Or.inl h1)
    · rw [hmode] at hclk hloop
      rcases tick_loop_classes _ _ _ _ _ hloop e he with h1 | ⟨h1, _, h3⟩
      · exact Or.inr (Or.inr ⟨h1, hclk⟩)
      · refine Or.inr (Or.inl ⟨?_, h3⟩)
        simp [is_transport, h1]

/-- The conversion to `int` keeps a value in the range of `int`. -/
theorem to_int_of_range {v : Int} (h1 : INT_MIN ≤ v) (h2 : v ≤ INT_MAX) : to_int v = v := by
  unfold to_int
  rw [if_pos ⟨h1, h2⟩]

/-- The conversion to `int` turns only `k` into a value `k` other than `INT_MIN`. -/
theorem eq_of_to_int_eq {v k : Int} (hk : k ≠ INT_MIN) (h : to_int v = k) : v = k := by
  unfold to_int at h
  split_ifs at h
  · exact h
  · exact absurd h.symm hk

/-- The conversion to `int64_t` keeps a value in the range of `int64_t`. -/
theorem to_int64_of_range {v : Int} (h1 : INT64_MIN ≤ v) (h2 : v ≤ INT64_MAX) :
    to_int64 v = v := by
  unfold to_int64
  rw [if_pos ⟨h1, h2⟩]

theorem set_mode_zero {p_mode : ℚ} (h : rintf p_mode = 0) :
    set_mode p_mode = MSG_NO_POSITION ||| MSG_NO_CLOCK := by
  unfold set_mode
  rw [h, to_int_of_range (by decide) (by decide)]
  rfl

theorem set_mode_one {p_mode : ℚ} (h : rintf p_mode = 1) :
    set_mode p_mode = MSG_NO_POSITION ||| MSG_NO_TRANSPORT := by
  unfold set_mode
  rw [h, to_int_of_range (by decide) (by decide)]
  rfl

theorem set_mode_two {p_mode : ℚ} (h : rintf p_mode = 2) :
    set_mode p_mode = MSG_NO_POSITION := by
  unfold set_mode
  rw [h, to_int_of_range (by decide) (by decide)]
  rfl

theorem set_mode_other {p_mode : ℚ} (h0 : rintf p_mode ≠ 0) (h1 : rintf p_mode ≠ 1)
    (h2 : rintf p_mode ≠ 2) : set_mode p_mode = 0 := by
  unfold set_mode
  split
  · rename_i h; exact absurd (eq_of_to_int_eq (by decide) h) h0
  · rename_i h; exact absurd (eq_of_to_int_eq (by decide) h) h1
  · rename_i h; exact absurd (eq_of_to_int_eq (by decide) h) h2
  · rfl

theorem not_song_position_of_clock {e : MidiEvent} (h : is_clock e = true) :
    is_song_position e = false := by
  simp only [is_clock, decide_eq_true_eq] at h
  simp [is_song_position, h, MIDI_RT_CLOCK]

theorem not_song_position_of_transport {e : MidiEvent} (h : is_transport e = true) :
    is_song_position e = false := by
  simp only [is_transport, decide_eq_true_eq] at h
  rcases h with h | h | h <;>
    simp [is_song_position, h, MIDI_RT_START, MIDI_RT_STOP, MIDI_RT_CONTINUE]

theorem not_transport_of_clock {e : MidiEvent} (h : is_clock e = true) :
    is_transport e = false := by
  simp only [is_clock, decide_eq_true_eq] at h
  simp [is_transport, h, MIDI_RT_CLOCK, MIDI_RT_START, MIDI_RT_STOP, MIDI_RT_CONTINUE]

/-- A block that is not rolling returns, whatever the fuel, without entering
the tick loop: its output has no clock pulse, and the stored rolling flag is
false afterwards unless the block took the reversed-host path. -/
theorem run_not_rolling (fuel : Nat) (self : Mclk) (inp : Ports)
    (hnr : (block_transport self inp).rolling = false) :
    ∃ r, run fuel self inp = .ok r ∧ clock_events r.2.events = []
      ∧ ((block_transport self inp).reverse = false →
          r.1.rolling = false ∧ r.2.events = (before_ticks self inp).2)
      ∧ ((block_transport self inp).reverse = true →
          r.1.rolling = (block_transport self inp).self.rolling ∧ r.2.events = []) := by
  by_cases hrev : (block_transport self inp).reverse = true
  · refine ⟨(next_cycle (block_transport self inp).self inp (block_transport self inp).rolling
        (block_transport self inp).bpm,
      ⟨[], (block_transport self inp).p_hostbpm, (block_transport self inp).bb⟩), ?_, rfl, ?_, ?_⟩
    · unfold run
      simp only
      rw [if_pos hrev]
    · intro hc
      rw [hrev] at hc
      cases hc
    · intro _
      exact ⟨(next_cycle_keeps _ _ _ _).2.1, rfl⟩
  · refine ⟨(next_cycle (before_ticks self inp).1 inp (block_transport self inp).rolling
        (block_transport self inp).bpm,
      ⟨(before_ticks self inp).2, (block_transport self inp).p_hostbpm,
        (block_transport self inp).bb⟩), ?_, before_ticks_no_clock self inp, ?_, ?_⟩
    · unfold run
      simp only
      rw [if_neg hrev, if_pos (Or.inl hnr)]
    · intro _
      refine ⟨?_, rfl⟩
      rw [(next_cycle_keeps _ _ _ _).2.1]
      unfold before_ticks
      exact hnr
    · intro hc
      exact absurd hc hrev

/-- A call of `run` with clock pulses suppressed returns, whatever the fuel. -/
theorem run_returns_no_clock (fuel : Nat) (self : Mclk) (inp : Ports)
    (h : set_mode inp.p_mode &&& MSG_NO_CLOCK ≠ 0) : ∃ r, run fuel self inp = .ok r := by
  unfold run
  simp only
  split_ifs with h1 h2
  · exact ⟨_, rfl⟩
  · exact ⟨_, rfl⟩
  · rw [before_ticks_mode] at h2
    exact absurd (Or.inr h) h2

/-- C3: a run block whose mode selector rounds to 0 returns and emits no
song-position message and no clock pulse; a run block whose mode selector
rounds to 1 emits no song-position message and no start, stop or continue
message. -/
theorem run_suppression (fuel : Nat) (self : Mclk) (inp : Ports) :
    (rintf inp.p_mode = 0 →
      ∃ r, run fuel self inp = .ok r
        ∧ ∀ e ∈ r.2.events, is_song_position e = false ∧ is_clock e = false)
    ∧ (rintf inp.p_mode = 1 →
      ∀ r, run fuel self inp = .ok r →
        ∀ e ∈ r.2.events, is_song_position e = false ∧ is_transport e = false) := by
  constructor
  · intro h0
    have hm := set_mode_zero h0
    obtain ⟨r, hr⟩ := run_returns_no_clock fuel self inp (by rw [hm]; decide)
    refine ⟨r, hr, ?_⟩
    intro e he
    rcases run_events_classes hr e he with ⟨_, h1⟩ | ⟨h1, _⟩ | ⟨_, h1⟩
    · rw [hm] at h1; exact absurd h1 (by decide)
    · exact ⟨not_song_position_of_transport h1, not_clock_of_transport h1⟩
    · rw [hm] at h1; exact absurd h1 (by decide)
  · intro h1 r hr e he
    have hm := set_mode_one h1
    rcases run_events_classes hr e he with ⟨_, h2⟩ | ⟨_, h2⟩ | ⟨h2, _⟩
    · rw [hm] at h2; exact absurd h2 (by decide)
    · rw [hm] at h2; exact absurd h2 (by decide)
    · exact ⟨not_song_position_of_clock h2, not_transport_of_clock h2⟩

/-- Witness for C3: a fresh instance started with mode selector 0, and one
started with mode selector 1, in a block of 2512 samples at 120 bpm. -/
theorem run_suppression_witness :
    (∃ r, run 10 (instantiate 48000) ⟨[], 0, 0, 120, 1, 0, 2512⟩ = .ok r
        ∧ ∀ e ∈ r.2.events, is_song_position e = false ∧ is_clock e = false)
    ∧ (∀ r, run 10 (instantiate 48000) ⟨[], 1, 0, 120, 1, 0, 2512⟩ = .ok r →
        ∀ e ∈ r.2.events, is_song_position e = false ∧ is_transport e = false) :=
  ⟨(run_suppression 10 (instantiate 48000) ⟨[], 0, 0, 120, 1, 0, 2512⟩).1
      (by with_unfolding_all decide),
    (run_suppression 10 (instantiate 48000) ⟨[], 1, 0, 120, 1, 0, 2512⟩).2
      (by with_unfolding_all decide)⟩

/-- C4: the mode mask decoded from the selector is suppress song-position
with suppress clock when the rounded selector is 0, suppress song-position
with suppress transport when it is 1, suppress song-position alone when it is
2, and the empty mask for every other value; `run` stores this mask before it
looks at the transport, every call of `run` that returns leaves it in the
instance, and `run` does return: with any fuel when the block is not rolling
or the rounded selector is 0, and with enough fuel when the sample rate and
the effective tempo are positive and the phase accumulator is finite. -/
theorem run_mode_decoding (self : Mclk) (inp : Ports) :
    set_mode inp.p_mode =
      (if rintf inp.p_mode = 0 then MSG_NO_POSITION ||| MSG_NO_CLOCK
      else if rintf inp.p_mode = 1 then MSG_NO_POSITION ||| MSG_NO_TRANSPORT
      else if rintf inp.p_mode = 2 then MSG_NO_POSITION
      else 0)
    ∧ (block_transport self inp).self.mode = set_mode inp.p_mode
    ∧ (before_ticks self inp).1.mode = set_mode inp.p_mode
    ∧ (∀ fuel r, run fuel self inp = .ok r → r.1.mode = set_mode inp.p_mode)
    ∧ (((block_transport self inp).rolling = false ∨ rintf inp.p_mode = 0) →
        ∀ fuel, ∃ r, run fuel self inp = .ok r ∧ r.1.mode = set_mode inp.p_mode)
    ∧ (0 < self.sample_rate → 0 < (block_transport self inp).bpm →
        self.mclk_last_tick ≠ none →
        ∃ fuel r, run fuel self inp = .ok r ∧ r.1.mode = set_mode inp.p_mode) := by
  have hmode : ∀ fuel r, run fuel self inp = .ok r → r.1.mode = set_mode inp.p_mode := by
    intro fuel r h
    rcases run_ok_cases h with ⟨_, hr⟩ | ⟨_, _, hr⟩ | ⟨_, _, _, _, _, _, _, _, _, _, _, hr⟩
    · subst hr
      rw [(next_cycle_keeps _ _ _ _).1]
      exact (block_transport_keeps self inp).2.1
    · subst hr
      rw [(next_cycle_keeps _ _ _ _).1]
      exact before_ticks_mode self inp
    · subst hr
      rw [(next_cycle_keeps _ _ _ _).1]
      exact before_ticks_mode self inp
  refine ⟨?_, (block_transport_keeps self inp).2.1, before_ticks_mode self inp, hmode, ?_, ?_⟩
  · split_ifs with h0 h1 h2
    · exact set_mode_zero h0
    · exact set_mode_one h1
    · exact set_mode_two h2
    · exact set_mode_other h0 h1 h2
  · intro hc fuel
    rcases hc with hnr | h0
    · obtain ⟨r, hr, _⟩ := run_not_rolling fuel self inp hnr
      exact ⟨r, hr, hmode fuel r hr⟩
    · obtain ⟨r, hr⟩ := run_returns_no_clock fuel self inp
        (by rw [set_mode_zero h0]; decide)
      exact ⟨r, hr, hmode fuel r hr⟩
  · intro hsr hbpm hfin
    obtain ⟨fuel, r, hr⟩ := run_returns self inp hsr hbpm hfin
    exact ⟨fuel, r, hr, hmode fuel r hr⟩

/-- Witness for C4: a fresh instance at 48000 Hz with mode selector 2, stopped
(it returns with any fuel) and started at 120 bpm (it returns with enough
fuel); the mask is suppress song-position in both. -/
theorem run_mode_decoding_witness :
    (∃ r, run 0 (instantiate 48000) ⟨[], 2, 0, 120, 0, 0, 512⟩ = .ok r
        ∧ r.1.mode = MSG_NO_POSITION)
    ∧ ∃ fuel r, run fuel (instantiate 48000) ⟨[], 2, 0, 120, 1, 0, 512⟩ = .ok r
        ∧ r.1.mode = MSG_NO_POSITION :=
  ⟨((run_mode_decoding (instantiate 48000) ⟨[], 2, 0, 120, 0, 0, 512⟩).2.2.2.2.1
        (Or.inl (by with_unfolding_all decide)) 0).imp
      (fun _ h => ⟨h.1, h.2.trans (by with_unfolding_all decide)⟩),
    ((run_mode_decoding (instantiate 48000) ⟨[], 2, 0, 120, 1, 0, 512⟩).2.2.2.2.2
        (by with_unfolding_all decide) (by with_unfolding_all decide)
        (by with_unfolding_all decide)).imp
      (fun _ h => h.imp (fun _ h => ⟨h.1, h.2.trans (by with_unfolding_all decide)⟩))⟩

/-! ## Transport transitions -/

theorem send_transport_resume (self : Mclk) (bb bpm : ℚ) (spb : Option ℚ)
    (h : self.rolling = false) (hb : ¬ (bb = 0 ∨ self.mode &&& MSG_NO_POSITION ≠ 0)) :
    send_transport self true bb bpm spb
      = ({ self with mclk_last_tick := spb.map (fun x => x * bb) }, []) := by
  unfold send_transport
  have h1 : (true ≠ self.rolling) := by rw [h]; decide
  have h2 : ¬ (self.mode &&& MSG_NO_POSITION ≠ 0) := fun hc => hb (Or.inr hc)
  simp only [if_pos h1, if_neg hb, if_neg h2, if_true]

theorem set_transport_reverse_not_rolling (self : Mclk) (inp : Ports)
    (h : (set_transport self inp).reverse = true) : (set_transport self inp).rolling = false := by
  unfold set_transport at h ⊢
  simp only at h ⊢
  split_ifs at h ⊢ with h1 h2
  · simp only [decide_eq_false_iff_not, not_lt]
    exact le_of_lt h2

theorem start_not_mem_tick_loop {mode : Nat} {bb bpm interval : ℚ} {sample_position : Int}
    {n_samples fuel : Nat} {last : ℚ} {lb : Int} {t : Nat} {r : ℚ × Int × List MidiEvent}
    (h : tick_loop mode bb bpm interval sample_position n_samples fuel last lb t = some r) :
    send_rt_message 0 MIDI_RT_START ∉ r.2.2 := by
  intro hmem
  rcases tick_loop_classes _ _ _ _ _ h _ hmem with h1 | ⟨h1, _, _⟩
  · simp [is_clock, send_rt_message, MIDI_RT_START, MIDI_RT_CLOCK] at h1
  · simp [send_rt_message, MIDI_RT_START, MIDI_RT_CONTINUE] at h1

/-- C5, STOPPED to ROLLING: in a block in which the stored rolling state is
false at the comparison and the effective rolling is true, the transition
forges a start message at offset 0 exactly when transport messages are not
suppressed and (bar_beat is 0 or song-position messages are suppressed), and
nothing otherwise; whenever bar_beat is 0 or song-position messages are
suppressed the pending resync is cleared (`last_bcnt = -1`); when bar_beat is
nonzero and song-position messages are enabled nothing is forged at the
transition and the pending resync value is left unchanged.  The events of the
transition open the output of the call, and the start message is in the output
under the same condition. -/
theorem run_stopped_to_rolling (self : Mclk) (inp : Ports)
    (hstop : (block_transport self inp).self.rolling = false)
    (hroll : (block_transport self inp).rolling = true) :
    ((before_ticks self inp).2 =
        if set_mode inp.p_mode &&& MSG_NO_TRANSPORT = 0
            ∧ ((block_transport self inp).bb = 0 ∨ set_mode inp.p_mode &&& MSG_NO_POSITION ≠ 0)
        then [send_rt_message 0 MIDI_RT_START] else [])
    ∧ ((block_transport self inp).bb = 0 ∨ set_mode inp.p_mode &&& MSG_NO_POSITION ≠ 0 →
        (before_ticks self inp).1.last_bcnt = -1)
    ∧ ((block_transport self inp).bb ≠ 0 ∧ set_mode inp.p_mode &&& MSG_NO_POSITION = 0 →
        (before_ticks self inp).2 = []
          ∧ (before_ticks self inp).1.last_bcnt = (block_transport self inp).self.last_bcnt)
    ∧ ∀ fuel r, run fuel self inp = .ok r →
        (before_ticks self inp).2 <+: r.2.events
        ∧ (send_rt_message 0 MIDI_RT_START ∈ r.2.events ↔
            set_mode inp.p_mode &&& MSG_NO_TRANSPORT = 0
              ∧ ((block_transport self inp).bb = 0
                  ∨ set_mode inp.p_mode &&& MSG_NO_POSITION ≠ 0)) := by
  have hm : (block_transport self inp).self.mode = set_mode inp.p_mode :=
    (block_transport_keeps self inp).2.1
  have hbt : before_ticks self inp
      = ({ (send_transport (block_transport self inp).self true (block_transport self inp).bb
              (block_transport self inp).bpm
              (samples_per_beat (block_transport self inp).self.sample_rate
                (block_transport self inp).bpm)).1 with rolling := true },
          (send_transport (block_transport self inp).self true (block_transport self inp).bb
              (block_transport self inp).bpm
              (samples_per_beat (block_transport self inp).self.sample_rate
                (block_transport self inp).bpm)).2) := by
    unfold before_ticks
    simp only [hroll, send_located_rolling, List.nil_append]
  have hev : (before_ticks self inp).2 =
      if set_mode inp.p_mode &&& MSG_NO_TRANSPORT = 0
          ∧ ((block_transport self inp).bb = 0 ∨ set_mode inp.p_mode &&& MSG_NO_POSITION ≠ 0)
      then [send_rt_message 0 MIDI_RT_START] else [] := by
    rw [hbt]
    by_cases hb : (block_transport self inp).bb = 0
        ∨ (block_transport self inp).self.mode &&& MSG_NO_POSITION ≠ 0
    · rw [send_transport_start _ _ _ _ hstop hb]
      rw [hm] at hb ⊢
      by_cases ht : set_mode inp.p_mode &&& MSG_NO_TRANSPORT = 0
      · simp only [ht, if_true, hb, and_self]
      · simp only [ht, if_false, false_and]
    · rw [send_transport_resume _ _ _ _ hstop hb]
      rw [hm] at hb
      simp only [hb, and_false, if_false]
  refine ⟨hev, ?_, ?_, ?_⟩
  · intro hb
    rw [← hm] at hb
    rw [hbt, send_transport_start _ _ _ _ hstop hb]
  · intro hb
    have hb1 : ¬ ((block_transport self inp).bb = 0
        ∨ (block_transport self inp).self.mode &&& MSG_NO_POSITION ≠ 0) := by
      rw [hm]
      intro hc
      rcases hc with hc | hc
      · exact hb.1 hc
      · exact hc hb.2
    rw [hbt, send_transport_resume _ _ _ _ hstop hb1]
    exact ⟨rfl, rfl⟩
  · intro fuel r h
    rcases run_ok_cases h with ⟨hrev, _⟩ | ⟨_, _, hr⟩
      | ⟨_, _, _, last, interval, l1, b1, evs, _, _, hloop, hr⟩
    · have := set_transport_reverse_not_rolling _ _ hrev
      unfold block_transport at hroll
      rw [this] at hroll
      cases hroll
    · subst hr
      refine ⟨List.prefix_refl _, ?_⟩
      simp only
      rw [hev]
      split_ifs with hc
      · simp [hc]
      · simp [hc]
    · subst hr
      refine ⟨List.prefix_append _ _, ?_⟩
      simp only [List.mem_append]
      have hns := start_not_mem_tick_loop hloop
      simp only at hns
      rw [hev]
      split_ifs with hc
      · simp [hc]
      · simp [hc, hns]

/-- Witness for C5: a fresh instance whose transport is requested. -/
theorem run_stopped_to_rolling_witness :
    (block_transport (instantiate 48000) ⟨[], 3, 0, 120, 1, 0, 512⟩).self.rolling = false
    ∧ (block_transport (instantiate 48000) ⟨[], 3, 0, 120, 1, 0, 512⟩).rolling = true
    ∧ (before_ticks (instantiate 48000) ⟨[], 3, 0, 120, 1, 0, 512⟩).2
        = [send_rt_message 0 MIDI_RT_START]
    ∧ (before_ticks (instantiate 48000) ⟨[], 3, 0, 120, 1, 0, 512⟩).1.last_bcnt = -1 :=
  ⟨by with_unfolding_all decide, by with_unfolding_all decide,
    ((run_stopped_to_rolling (instantiate 48000) ⟨[], 3, 0, 120, 1, 0, 512⟩
      (by with_unfolding_all decide) (by with_unfolding_all decide)).1).trans
      (by with_unfolding_all decide),
    (run_stopped_to_rolling (instantiate 48000) ⟨[], 3, 0, 120, 1, 0, 512⟩
      (by with_unfolding_all decide) (by with_unfolding_all decide)).2.1
      (by with_unfolding_all decide)⟩

theorem send_located_was_rolling (self : Mclk) (rolling : Bool) (bb bpm : ℚ)
    (h : self.rolling = true) : send_located self rolling bb bpm = (self, []) := by
  unfold send_located
  simp [h]

theorem send_transport_stop (self : Mclk) (bb bpm : ℚ) (spb : Option ℚ)
    (h : self.rolling = true) :
    send_transport self false bb bpm spb
      = ({ self with
            last_bcnt := (send_pos_message self (calc_song_pos bb bpm (-1))).1
            mclk_last_tick := spb.map (fun x => x * bb) },
          (if self.mode &&& MSG_NO_TRANSPORT = 0 then [send_rt_message 0 MIDI_RT_STOP] else [])
            ++ (send_pos_message self (calc_song_pos bb bpm (-1))).2) := by
  unfold send_transport
  have h1 : (false ≠ self.rolling) := by rw [h]; decide
  simp only [if_pos h1, Bool.false_eq_true, if_false]

theorem send_pos_message_enabled (self : Mclk) (bcnt : Int)
    (h : self.mode &&& MSG_NO_POSITION = 0) :
    send_pos_message self bcnt
      = (bcnt,
          if 0 ≤ bcnt ∧ bcnt < 16384 then
            [⟨0, [0xf2, (bcnt % 128).toNat, (bcnt / 128 % 128).toNat]⟩]
          else []) := by
  unfold send_pos_message
  rw [if_neg (not_not.mpr h)]
  by_cases hr : bcnt < 0 ∨ bcnt ≥ 16384
  · rw [if_pos hr, if_neg (by omega)]
  · rw [if_neg hr, if_pos (by omega)]

/-- C6 (as amended), ROLLING to STOPPED: in a block in which the stored
rolling state is still true at the comparison (the block is not on the
reversed-host path and no relocation cleared the flag) and the effective
rolling is false, with transport and song-position messages enabled, `run`
returns and its output is the stop message at offset 0, followed by the
song-position message for `calc_song_pos (bar_beat, bpm, auto)` when that
value lies in `[0, 16383]` and by nothing otherwise; the phase accumulator is
reset to `samples_per_beat * bar_beat`, the instance is stopped and the value
is the pending resync target. -/
theorem run_rolling_to_stopped (fuel : Nat) (self : Mclk) (inp : Ports)
    (hrev : (block_transport self inp).reverse = false)
    (hwas : (block_transport self inp).self.rolling = true)
    (hnow : (block_transport self inp).rolling = false)
    (htr : set_mode inp.p_mode &&& MSG_NO_TRANSPORT = 0)
    (hpos : set_mode inp.p_mode &&& MSG_NO_POSITION = 0) :
    ∃ r, run fuel self inp = .ok r
      ∧ r.2.events = send_rt_message 0 MIDI_RT_STOP ::
          (if 0 ≤ calc_song_pos (block_transport self inp).bb (block_transport self inp).bpm (-1)
              ∧ calc_song_pos (block_transport self inp).bb (block_transport self inp).bpm (-1)
                < 16384
            then
              [⟨0, [0xf2,
                (calc_song_pos (block_transport self inp).bb (block_transport self inp).bpm (-1)
                  % 128).toNat,
                (calc_song_pos (block_transport self inp).bb (block_transport self inp).bpm (-1)
                  / 128 % 128).toNat]⟩]
            else [])
      ∧ r.1.mclk_last_tick
          = (samples_per_beat (block_transport self inp).self.sample_rate
              (block_transport self inp).bpm).map (fun x => x * (block_transport self inp).bb)
      ∧ r.1.rolling = false
      ∧ r.1.last_bcnt
          = calc_song_pos (block_transport self inp).bb (block_transport self inp).bpm (-1) := by
  have hm : (block_transport self inp).self.mode = set_mode inp.p_mode :=
    (block_transport_keeps self inp).2.1
  have hbt : before_ticks self inp
      = ({ (block_transport self inp).self with
            last_bcnt := calc_song_pos (block_transport self inp).bb
              (block_transport self inp).bpm (-1)
            mclk_last_tick := (samples_per_beat (block_transport self inp).self.sample_rate
              (block_transport self inp).bpm).map (fun x => x * (block_transport self inp).bb)
            rolling := false },
          send_rt_message 0 MIDI_RT_STOP ::
            (if 0 ≤ calc_song_pos (block_transport self inp).bb
                  (block_transport self inp).bpm (-1)
                ∧ calc_song_pos (block_transport self inp).bb
                  (block_transport self inp).bpm (-1) < 16384
              then
                [⟨0, [0xf2,
                  (calc_song_pos (block_transport self inp).bb
                    (block_transport self inp).bpm (-1) % 128).toNat,
                  (calc_song_pos (block_transport self inp).bb
                    (block_transport self inp).bpm (-1) / 128 % 128).toNat]⟩]
              else [])) := by
    unfold before_ticks
    simp only [send_located_was_rolling _ _ _ _ hwas, hnow, List.nil_append]
    rw [send_transport_stop _ _ _ _ hwas, send_pos_message_enabled _ _ (by rw [hm]; exact hpos)]
    simp only [hm, htr, if_true, List.singleton_append]
  refine ⟨(next_cycle (before_ticks self inp).1 inp (block_transport self inp).rolling
      (block_transport self inp).bpm,
    ⟨(before_ticks self inp).2, (block_transport self inp).p_hostbpm,
      (block_transport self inp).bb⟩), ?_, ?_, ?_, ?_, ?_⟩
  · unfold run
    simp only
    rw [if_neg (by rw [hrev]; decide), if_pos (Or.inl hnow)]
  · rw [hbt]
  · rw [(next_cycle_keeps _ _ _ _).2.2.2.1, hbt]
  · rw [(next_cycle_keeps _ _ _ _).2.1, hbt]
  · rw [(next_cycle_keeps _ _ _ _).2.2.1, hbt]

/-- Witness for C6 (as amended): an instance rolling at bar_beat 4 and
120 bpm whose transport request is switched off: stop, then song position
`8 + 16 = 24`. -/
theorem run_rolling_to_stopped_witness :
    ∃ r, run 0 rolling_internal ⟨[], 3, 0, 120, 0, 0, 512⟩ = .ok r
      ∧ r.2.events = [send_rt_message 0 MIDI_RT_STOP, ⟨0, [0xf2, 24, 0]⟩]
      ∧ r.1.mclk_last_tick = some 96000
      ∧ r.1.rolling = false
      ∧ r.1.last_bcnt = 24 := by
  obtain ⟨r, h1, h2, h3, h4, h5⟩ := run_rolling_to_stopped 0 rolling_internal
    ⟨[], 3, 0, 120, 0, 0, 512⟩
    (by with_unfolding_all decide) (by with_unfolding_all decide)
    (by with_unfolding_all decide) (by with_unfolding_all decide)
    (by with_unfolding_all decide)
  exact ⟨r, h1, h2.trans (by with_unfolding_all decide), h3.trans (by with_unfolding_all rfl),
    h4, h5.trans (by with_unfolding_all decide)⟩

/-- C6 fails as stated: an instance rolling at bar_beat 4 under external
sync receives a host report of a stop (speed 0) at bar 2, bar_beat 8.  The
block is entered with the stored rolling state true and its effective rolling
is false, but the relocation clears the stored flag before the comparison:
the output is the song-position message alone, with no stop message. -/
theorem run_rolling_to_stopped_counterexample :
    (run 0 rolling_sync ⟨[host_report 2 0 120 0 192000], 3, 1, 120, 0, 0, 512⟩).toOption.map
        (fun r => r.2.events)
      = some [⟨0, [0xf2, 32, 0]⟩] := by
  with_unfolding_all decide

/-! ## The deferred continue message -/

theorem clock_offsets_cons_clock (t : Int) (evs : List MidiEvent) :
    clock_offsets (send_rt_message t MIDI_RT_CLOCK :: evs) = t :: clock_offsets evs := by
  simp [clock_offsets, clock_events, is_clock, send_rt_message]

theorem clock_offsets_cons_continue (t : Int) (evs : List MidiEvent) :
    clock_offsets (send_rt_message t MIDI_RT_CONTINUE :: evs) = clock_offsets evs := by
  simp [clock_offsets, clock_events, is_clock, send_rt_message, MIDI_RT_CONTINUE, MIDI_RT_CLOCK]

/-- With no resync pending the tick loop forges clock pulses only and leaves
`last_bcnt` as it is. -/
theorem tick_loop_no_pending {mode : Nat} {bb bpm interval : ℚ} {sample_position : Int}
    {n_samples : Nat} {lb : Int} (hlb : lb ≤ 0) :
    ∀ (fuel : Nat) (last : ℚ) (t : Nat) (r : ℚ × Int × List MidiEvent),
      tick_loop mode bb bpm interval sample_position n_samples fuel last lb t = some r →
      r.2.2 = (clock_offsets r.2.2).map (fun o => send_rt_message o MIDI_RT_CLOCK)
        ∧ r.2.1 = lb := by
  intro fuel
  induction fuel with
  | zero => intro last t r h; simp [tick_loop] at h
  | succ fuel ih =>
    intro last t r h
    rw [tick_loop_succ] at h
    have hc : send_continue mode bb bpm lb t (llrint (last + interval) - sample_position)
        = (lb, []) := by
      rw [send_continue, if_neg]
      intro hcon
      omega
    split_ifs at h with h1 h2
    · cases h
      exact ⟨rfl, rfl⟩
    · rw [hc] at h
      cases hrec : tick_loop mode bb bpm interval sample_position n_samples fuel
          (last + interval) lb (t + 1) with
      | none => simp [hrec] at h
      | some r1 =>
        obtain ⟨l1, b1, evs⟩ := r1
        simp only [hrec, Option.some.injEq, List.nil_append] at h
        subst h
        obtain ⟨he, hb⟩ := ih _ _ _ hrec
        simp only at he hb ⊢
        rw [clock_offsets_cons_clock, List.map_cons, ← he]
        exact ⟨rfl, hb⟩
    · exact ih _ _ _ h

/-- With song-position messages enabled and a resync pending, the tick loop
forges the continue message right before the first pulse of the block whose
count reaches the pending target, and clears the target; when no pulse of the
block reaches it, the loop forges clock pulses only and keeps the target. -/
theorem tick_loop_pending {mode : Nat} {bb bpm interval : ℚ} {sample_position : Int}
    {n_samples : Nat} {lb : Int} (hlb : 0 < lb) (hpos : mode &&& MSG_NO_POSITION = 0) :
    ∀ (fuel : Nat) (last : ℚ) (t : Nat) (r : ℚ × Int × List MidiEvent),
      tick_loop mode bb bpm interval sample_position n_samples fuel last lb t = some r →
      ((∀ j, j < (clock_offsets r.2.2).length →
            ¬ (calc_song_pos bb bpm 0 + (((t + j) / 6 : Nat) : Int) ≥ lb)) →
          r.2.2 = (clock_offsets r.2.2).map (fun o => send_rt_message o MIDI_RT_CLOCK)
            ∧ r.2.1 = lb)
      ∧ ∀ (j : Nat) (hj : j < (clock_offsets r.2.2).length),
          calc_song_pos bb bpm 0 + (((t + j) / 6 : Nat) : Int) ≥ lb →
          (∀ i, i < j → ¬ (calc_song_pos bb bpm 0 + (((t + i) / 6 : Nat) : Int) ≥ lb)) →
          r.2.2 = ((clock_offsets r.2.2).take j).map (fun o => send_rt_message o MIDI_RT_CLOCK)
              ++ (if mode &&& MSG_NO_TRANSPORT = 0 then
                    [send_rt_message ((clock_offsets r.2.2).get ⟨j, hj⟩) MIDI_RT_CONTINUE]
                  else [])
              ++ ((clock_offsets r.2.2).drop j).map (fun o => send_rt_message o MIDI_RT_CLOCK)
            ∧ r.2.1 = -1 := by
  intro fuel
  induction fuel with
  | zero => intro last t r h; simp [tick_loop] at h
  | succ fuel ih =>
    intro last t r h
    rw [tick_loop_succ] at h
    split_ifs at h with h1 h2
    · cases h
      refine ⟨fun _ => ⟨rfl, rfl⟩, ?_⟩
      intro j hj
      simp [clock_offsets, clock_events] at hj
    · cases hrec : tick_loop mode bb bpm interval sample_position n_samples fuel
          (last + interval)
          (send_continue mode bb bpm lb t (llrint (last + interval) - sample_position)).1
          (t + 1) with
      | none => simp [hrec] at h
      | some r1 =>
        obtain ⟨l1, b1, evs⟩ := r1
        simp only [hrec, Option.some.injEq] at h
        subst h
        by_cases hdue : calc_song_pos bb bpm 0 + (((t / 6 : Nat)) : Int) ≥ lb
        · -- the continue message is due at this pulse
          have hc : send_continue mode bb bpm lb t (llrint (last + interval) - sample_position)
              = (-1, if mode &&& MSG_NO_TRANSPORT = 0 then
                  [send_rt_message (llrint (last + interval) - sample_position) MIDI_RT_CONTINUE]
                  else []) := by
            rw [send_continue, if_pos ⟨hlb, hpos⟩, if_pos hdue]
          rw [hc] at hrec ⊢
          have hm1 : (-1 : Int) ≤ 0 := by decide
          obtain ⟨he, hb⟩ := tick_loop_no_pending hm1 _ _ _ _ hrec
          simp only at he hb ⊢
          have hoffs : clock_offsets
              ((if mode &&& MSG_NO_TRANSPORT = 0 then
                  [send_rt_message (llrint (last + interval) - sample_position) MIDI_RT_CONTINUE]
                else [])
                ++ send_rt_message (llrint (last + interval) - sample_position) MIDI_RT_CLOCK
                  :: evs)
              = (llrint (last + interval) - sample_position) :: clock_offsets evs := by
            split_ifs
            · rw [List.singleton_append, clock_offsets_cons_continue, clock_offsets_cons_clock]
            · rw [List.nil_append, clock_offsets_cons_clock]
          rw [hoffs]
          refine ⟨?_, ?_⟩
          · intro hno
            exact absurd hdue (by simpa using hno 0 (by simp))
          · intro j hj _ hfirst
            have hj0 : j = 0 := by
              by_contra hne
              exact hfirst 0 (Nat.pos_of_ne_zero hne) (by simpa using hdue)
            subst hj0
            simp only [List.take_zero, List.map_nil, List.nil_append, List.drop_zero,
              List.map_cons, List.get_eq_getElem, List.getElem_cons_zero]
            rw [← he]
            exact ⟨rfl, hb⟩
        · -- not yet due: the pulse is forged alone
          have hc : send_continue mode bb bpm lb t (llrint (last + interval) - sample_position)
              = (lb, []) := by
            rw [send_continue, if_pos ⟨hlb, hpos⟩, if_neg hdue]
          rw [hc] at hrec ⊢
          obtain ⟨ih1, ih2⟩ := ih _ _ _ hrec
          simp only at ih1 ih2 ⊢
          rw [List.nil_append, clock_offsets_cons_clock]
          refine ⟨?_, ?_⟩
          · intro hno
            have hno1 : ∀ j, j < (clock_offsets evs).length →
                ¬ (calc_song_pos bb bpm 0 + (((t + 1 + j) / 6 : Nat) : Int) ≥ lb) := by
              intro j hj
              have := hno (j + 1) (by simpa using hj)
              rwa [show t + (j + 1) = t + 1 + j by omega] at this
            obtain ⟨he, hb⟩ := ih1 hno1
            rw [List.map_cons, ← he]
            exact ⟨rfl, hb⟩
          · intro j hj hd hfirst
            cases j with
            | zero => exact absurd (by simpa using hd) hdue
            | succ j =>
              have hj1 : j < (clock_offsets evs).length := by simpa using hj
              have hd1 : calc_song_pos bb bpm 0 + (((t + 1 + j) / 6 : Nat) : Int) ≥ lb := by
                rwa [show t + (j + 1) = t + 1 + j by omega] at hd
              have hfirst1 : ∀ i, i < j →
                  ¬ (calc_song_pos bb bpm 0 + (((t + 1 + i) / 6 : Nat) : Int) ≥ lb) := by
                intro i hi
                have := hfirst (i + 1) (by omega)
                rwa [show t + (i + 1) = t + 1 + i by omega] at this
              obtain ⟨he, hb⟩ := ih2 j hj1 hd1 hfirst1
              refine ⟨?_, hb⟩
              simp only [List.take_succ_cons, List.map_cons, List.drop_succ_cons,
                List.get_eq_getElem, List.getElem_cons_succ, List.cons_append]
              simp only [List.get_eq_getElem] at he
              rw [← he]
    · exact ih _ _ _ h

theorem set_mode_position_enabled {p_mode : ℚ}
    (h : set_mode p_mode &&& MSG_NO_POSITION = 0) : set_mode p_mode = 0 := by
  unfold set_mode at h ⊢
  split at h
  · exact absurd h (by decide)
  · exact absurd h (by decide)
  · exact absurd h (by decide)
  · rfl

/-- A rolling block that reaches the tick loop with a resync pending has
forged nothing before the loop. -/
theorem before_ticks_pending_nil (self : Mclk) (inp : Ports)
    (hroll : (block_transport self inp).rolling = true)
    (hpend : 0 < (before_ticks self inp).1.last_bcnt) :
    (before_ticks self inp).2 = [] := by
  have hbt : before_ticks self inp
      = ({ (send_transport (block_transport self inp).self true (block_transport self inp).bb
              (block_transport self inp).bpm
              (samples_per_beat (block_transport self inp).self.sample_rate
                (block_transport self inp).bpm)).1 with rolling := true },
          (send_transport (block_transport self inp).self true (block_transport self inp).bb
              (block_transport self inp).bpm
              (samples_per_beat (block_transport self inp).self.sample_rate
                (block_transport self inp).bpm)).2) := by
    unfold before_ticks
    simp only [hroll, send_located_rolling, List.nil_append]
  rw [hbt] at hpend ⊢
  by_cases hwas : (block_transport self inp).self.rolling = true
  · rw [send_transport_same _ _ _ _ _ hwas.symm]
  · have hwas1 : (block_transport self inp).self.rolling = false := by simpa using hwas
    by_cases hb : (block_transport self inp).bb = 0
        ∨ (block_transport self inp).self.mode &&& MSG_NO_POSITION ≠ 0
    · rw [send_transport_start _ _ _ _ hwas1 hb] at hpend
      simp at hpend
    · rw [send_transport_resume _ _ _ _ hwas1 hb]

/-- C7, deferred continue: in a rolling block with clock and song-position
messages enabled (the mode mask is then empty, so transport messages are
enabled too) that reaches the tick loop with a pending resync target
`last_bcnt > 0`, the call returns (with enough fuel, when the sample rate and
the effective tempo are positive and the phase accumulator is finite), and
every call that returns forges the continue message at the offset of the
first in-block pulse `j` for which
`calc_song_pos (bar_beat, bpm, 0) + j / 6 >= last_bcnt` (`j` pulses already
emitted in this block), immediately before that pulse, forges clock pulses
otherwise, and clears the target to -1; if no pulse of the block satisfies
the condition the output is clock pulses only and the target is carried
unchanged to the next block. -/
theorem run_deferred_continue (self : Mclk) (inp : Ports)
    (hroll : (block_transport self inp).rolling = true)
    (hpos : set_mode inp.p_mode &&& MSG_NO_POSITION = 0)
    (hclk : set_mode inp.p_mode &&& MSG_NO_CLOCK = 0)
    (hpend : 0 < (before_ticks self inp).1.last_bcnt) :
    set_mode inp.p_mode &&& MSG_NO_TRANSPORT = 0
    ∧ (0 < self.sample_rate → 0 < (block_transport self inp).bpm →
        self.mclk_last_tick ≠ none → ∃ fuel r, run fuel self inp = .ok r)
    ∧ ∀ fuel r, run fuel self inp = .ok r →
      ((∀ j, j < (clock_offsets r.2.events).length →
          ¬ (calc_song_pos (block_transport self inp).bb (block_transport self inp).bpm 0
              + ((j / 6 : Nat) : Int) ≥ (before_ticks self inp).1.last_bcnt)) →
        r.2.events
            = (clock_offsets r.2.events).map (fun o => send_rt_message o MIDI_RT_CLOCK)
          ∧ r.1.last_bcnt = (before_ticks self inp).1.last_bcnt)
      ∧ ∀ (j : Nat) (hj : j < (clock_offsets r.2.events).length),
        calc_song_pos (block_transport self inp).bb (block_transport self inp).bpm 0
            + ((j / 6 : Nat) : Int) ≥ (before_ticks self inp).1.last_bcnt →
        (∀ i, i < j →
          ¬ (calc_song_pos (block_transport self inp).bb (block_transport self inp).bpm 0
              + ((i / 6 : Nat) : Int) ≥ (before_ticks self inp).1.last_bcnt)) →
        r.2.events
            = ((clock_offsets r.2.events).take j).map (fun o => send_rt_message o MIDI_RT_CLOCK)
              ++ [send_rt_message ((clock_offsets r.2.events).get ⟨j, hj⟩) MIDI_RT_CONTINUE]
              ++ ((clock_offsets r.2.events).drop j).map
                  (fun o => send_rt_message o MIDI_RT_CLOCK)
          ∧ r.1.last_bcnt = -1 := by
  have hm0 := set_mode_position_enabled hpos
  have hmode := before_ticks_mode self inp
  have hnil := before_ticks_pending_nil self inp hroll hpend
  have htr : set_mode inp.p_mode &&& MSG_NO_TRANSPORT = 0 := by rw [hm0]; decide
  refine ⟨htr, run_returns self inp, ?_⟩
  intro fuel r h
  rcases run_ok_cases h with ⟨hrev, _⟩ | ⟨_, hno, _⟩
    | ⟨_, _, _, last, interval, l1, b1, evs, _, _, hloop, hr⟩
  · have := set_transport_reverse_not_rolling _ _ hrev
    unfold block_transport at hroll
    rw [this] at hroll
    cases hroll
  · rw [hmode] at hno
    rcases hno with hno | hno
    · rw [hroll] at hno; cases hno
    · exact absurd hclk hno
  · have hre : r.2.events = evs := by rw [hr]; simp only [hnil, List.nil_append]
    have hrb : r.1.last_bcnt = b1 := by rw [hr]; exact (next_cycle_keeps _ _ _ _).2.2.1
    have hposm : (before_ticks self inp).1.mode &&& MSG_NO_POSITION = 0 := by
      rw [hmode]; exact hpos
    have htrm : (before_ticks self inp).1.mode &&& MSG_NO_TRANSPORT = 0 := by
      rw [hmode]; exact htr
    obtain ⟨p1, p2⟩ := tick_loop_pending hpend hposm _ _ _ _ hloop
    simp only [Nat.zero_add, htrm, if_true] at p1 p2
    clear hr h
    obtain ⟨s1, ⟨events, q1, q2⟩⟩ := r
    simp only at hre hrb ⊢
    subst hre
    rw [hrb]
    exact ⟨p1, p2⟩

/-- Witness for C7: the instance stopped at bar_beat 4 with pending target 17
is started at 15 bpm (a tick every 8000 samples) for a block of 60000
samples: the call returns, and `calc_song_pos (4, 15, 0) = 16`, so the
continue message is due at pulse 6, the seventh of the block. -/
theorem run_deferred_continue_witness :
    (∃ fuel r, run fuel stopped_pending ⟨[], 3, 0, 15, 1, 0, 60000⟩ = .ok r)
    ∧ ∃ r, run 10 stopped_pending ⟨[], 3, 0, 15, 1, 0, 60000⟩ = .ok r
      ∧ r.2.events
          = [send_rt_message 8000 MIDI_RT_CLOCK, send_rt_message 16000 MIDI_RT_CLOCK,
              send_rt_message 24000 MIDI_RT_CLOCK, send_rt_message 32000 MIDI_RT_CLOCK,
              send_rt_message 40000 MIDI_RT_CLOCK, send_rt_message 48000 MIDI_RT_CLOCK,
              send_rt_message 56000 MIDI_RT_CONTINUE, send_rt_message 56000 MIDI_RT_CLOCK]
      ∧ r.1.last_bcnt = -1 := by
  obtain ⟨_, hret, hall⟩ := run_deferred_continue stopped_pending
    ⟨[], 3, 0, 15, 1, 0, 60000⟩
    (by with_unfolding_all decide) (by with_unfolding_all decide)
    (by with_unfolding_all decide) (by with_unfolding_all decide)
  refine ⟨hret (by with_unfolding_all decide) (by with_unfolding_all decide)
    (by with_unfolding_all decide), ?_⟩
  have hoffs : (run 10 stopped_pending ⟨[], 3, 0, 15, 1, 0, 60000⟩).toOption.map
      (fun r => clock_offsets r.2.events)
      = some [8000, 16000, 24000, 32000, 40000, 48000, 56000] := by
    with_unfolding_all rfl
  cases h : run 10 stopped_pending ⟨[], 3, 0, 15, 1, 0, 60000⟩ with
  | error e =>
    rw [h] at hoffs
    cases hoffs
  | ok r =>
    rw [h] at hoffs
    have hoffs1 : clock_offsets r.2.events
        = [8000, 16000, 24000, 32000, 40000, 48000, 56000] := by
      simpa [Except.toOption] using hoffs
    obtain ⟨_, hc⟩ := hall 10 r h
    have h6 : 6 < (clock_offsets r.2.events).length := by rw [hoffs1]; decide
    obtain ⟨hev, hb⟩ := hc 6 h6 (by with_unfolding_all decide)
      (by
        intro i hi
        interval_cases i <;> with_unfolding_all decide)
    refine ⟨r, rfl, ?_, hb⟩
    rw [hev]
    simp only [List.get_eq_getElem, hoffs1]
    rfl

/-! ## Tempo, relocation and reversed host transport -/

/-- With a tick interval that is not positive, the tick loop never ends once
its first tick is before the end of the block. -/
theorem tick_loop_hangs (mode : Nat) (bb bpm : ℚ) {interval : ℚ} {sample_position : Int}
    {n_samples : Nat} (hI : interval ≤ 0) :
    ∀ (fuel : Nat) (last : ℚ) (lb : Int) (t : Nat),
      llrint (last + interval) - sample_position < (n_samples : Int) →
      tick_loop mode bb bpm interval sample_position n_samples fuel last lb t = none := by
  intro fuel
  induction fuel with
  | zero => intro last lb t _; rfl
  | succ fuel ih =>
    intro last lb t h
    have hstep : llrint (last + interval + interval) ≤ llrint (last + interval) :=
      rint_mono (by linarith)
    have hnext : llrint (last + interval + interval) - sample_position < (n_samples : Int) := by
      omega
    rw [tick_loop_succ, if_neg (not_le.mpr h)]
    split_ifs
    · rw [ih _ _ _ hnext]
    · exact ih _ _ _ hnext

/-- The effective rolling flag of a block is false when the request for
rolling is off: under external sync a host speed that is not positive, in
free-running mode a transport request that is off or an asserted rewind. -/
theorem block_transport_not_rolling (self : Mclk) (inp : Ports)
    (hreq : if (process_control self inp.control).host_info = true ∧ inp.p_sync > 0
      then (process_control self inp.control).host_speed ≤ 0
      else (inp.p_transport ≤ 0 ∨ inp.p_rewind > 0)) :
    (block_transport self inp).rolling = false := by
  unfold block_transport set_transport
  simp only
  split_ifs at hreq ⊢ <;> first | rfl | simp_all

/-- C8, tempo <= 0, evaluated at a block the code mishandles: a fresh instance
at 48000 Hz, free-running with the internal tempo set to -120 bpm, all
messages enabled, the transport requested, a block of 512 samples.  The
effective tempo is -120, yet the block is treated as rolling (rolling follows
the transport request alone), a start message is forged, and the tick
interval is -1000 samples: the ticks move backwards in time, the tick loop
never reaches the end of the block, and `run` does not return for any fuel.
With clock pulses suppressed (mode selector 0) the same block returns, with
the start message forged and the instance left rolling.  At tempo 0 the tick
interval is the quotient by zero, not a finite value, and `run` does not
return a result either. -/
theorem run_tempo_nonpositive_hangs :
    (block_transport (instantiate 48000) ⟨[], 3, 0, -120, 1, 0, 512⟩).bpm = -120
    ∧ (block_transport (instantiate 48000) ⟨[], 3, 0, -120, 1, 0, 512⟩).rolling = true
    ∧ (before_ticks (instantiate 48000) ⟨[], 3, 0, -120, 1, 0, 512⟩).2
        = [send_rt_message 0 MIDI_RT_START]
    ∧ clock_tick_interval
        (block_transport (instantiate 48000) ⟨[], 3, 0, -120, 1, 0, 512⟩).self.sample_rate
        (block_transport (instantiate 48000) ⟨[], 3, 0, -120, 1, 0, 512⟩).bpm = some (-1000)
    ∧ (∀ fuel, run fuel (instantiate 48000) ⟨[], 3, 0, -120, 1, 0, 512⟩
        = .error RunError.out_of_fuel)
    ∧ (∃ r, run 0 (instantiate 48000) ⟨[], 0, 0, -120, 1, 0, 512⟩ = .ok r
        ∧ r.1.rolling = true ∧ r.2.events = [send_rt_message 0 MIDI_RT_START])
    ∧ clock_tick_interval
        (block_transport (instantiate 48000) ⟨[], 3, 0, 0, 1, 0, 512⟩).self.sample_rate
        (block_transport (instantiate 48000) ⟨[], 3, 0, 0, 1, 0, 512⟩).bpm = none
    ∧ ∀ fuel, run fuel (instantiate 48000) ⟨[], 3, 0, 0, 1, 0, 512⟩
        = .error RunError.nonfinite := by
  have e2 : clock_tick_interval
      (block_transport (instantiate 48000) ⟨[], 3, 0, -120, 1, 0, 512⟩).self.sample_rate
      (block_transport (instantiate 48000) ⟨[], 3, 0, -120, 1, 0, 512⟩).bpm
      = some (-1000) := by with_unfolding_all rfl
  have e0 : clock_tick_interval
      (block_transport (instantiate 48000) ⟨[], 3, 0, 0, 1, 0, 512⟩).self.sample_rate
      (block_transport (instantiate 48000) ⟨[], 3, 0, 0, 1, 0, 512⟩).bpm = none := by
    with_unfolding_all rfl
  refine ⟨by with_unfolding_all rfl, by with_unfolding_all decide, by with_unfolding_all rfl,
    e2, ?_, ⟨_, by with_unfolding_all rfl, by with_unfolding_all rfl,
      by with_unfolding_all rfl⟩, e0, ?_⟩
  · intro fuel
    have e1 : (before_ticks (instantiate 48000) ⟨[], 3, 0, -120, 1, 0, 512⟩).1.mclk_last_tick
        = some 0 := by with_unfolding_all rfl
    have e3 : (block_transport (instantiate 48000) ⟨[], 3, 0, -120, 1, 0, 512⟩).sample_position
        = 0 := by with_unfolding_all rfl
    have hrev : ¬ (block_transport (instantiate 48000) ⟨[], 3, 0, -120, 1, 0, 512⟩).reverse
        = true := by with_unfolding_all decide
    have hno : ¬ ((block_transport (instantiate 48000) ⟨[], 3, 0, -120, 1, 0, 512⟩).rolling
          = false
        ∨ (before_ticks (instantiate 48000) ⟨[], 3, 0, -120, 1, 0, 512⟩).1.mode
          &&& MSG_NO_CLOCK ≠ 0) := by with_unfolding_all decide
    unfold run
    simp only
    rw [if_neg hrev, if_neg hno, e1, e2, e3]
    simp only
    rw [tick_loop_hangs _ _ _ (by norm_num : (-1000 : ℚ) ≤ 0) fuel 0 _ 0
      (by with_unfolding_all decide :
        llrint (0 + (-1000 : ℚ)) - (0 : Int) < ((512 : Nat) : Int))]
  · intro fuel
    have hrev : ¬ (block_transport (instantiate 48000) ⟨[], 3, 0, 0, 1, 0, 512⟩).reverse
        = true := by with_unfolding_all decide
    have hno : ¬ ((block_transport (instantiate 48000) ⟨[], 3, 0, 0, 1, 0, 512⟩).rolling
          = false
        ∨ (before_ticks (instantiate 48000) ⟨[], 3, 0, 0, 1, 0, 512⟩).1.mode
          &&& MSG_NO_CLOCK ≠ 0) := by with_unfolding_all decide
    unfold run
    simp only
    rw [if_neg hrev, if_neg hno, e0]
    cases (before_ticks (instantiate 48000) ⟨[], 3, 0, 0, 1, 0, 512⟩).1.mclk_last_tick <;> rfl

/-- Under external sync with a host speed that is not negative, a jump of
more than one beat is a relocation: the stored rolling flag is cleared, the
previous position is invalidated and the block does not roll. -/
theorem block_transport_located (self : Mclk) (inp : Ports)
    (hsync : (process_control self inp.control).host_info = true ∧ inp.p_sync > 0)
    (hspeed : ¬ (process_control self inp.control).host_speed < 0)
    (hjump : |self.bb - (process_control self inp.control).bar_beats| > 1) :
    block_transport self inp
      = ⟨{ process_control self inp.control with
            mode := set_mode inp.p_mode, rolling := false, bb := -1 },
          (process_control self inp.control).host_bpm,
          (process_control self inp.control).host_bpm
            * (process_control self inp.control).host_speed,
          (process_control self inp.control).host_frame, false,
          (process_control self inp.control).bar_beats, false⟩ := by
  have k4 := (process_control_keeps inp.control self).2.2.2.1
  unfold block_transport set_transport
  simp only
  rw [if_pos hsync, if_neg hspeed, if_pos (by rw [k4]; exact hjump)]

/-- C9, relocation while stopped: in an externally synced block where the
host is stopped (speed 0), whether or not the transport was stopped before
the block, if the previous and the reported bar_beat differ by more than 1
then the previous position is invalidated (`bb = -1` at the located check) and the block does
not roll: `run` returns, its output has no clock pulse and no start, stop or
continue message, and rolling is false afterwards; and when song-position
messages are enabled and `calc_song_pos (bar_beat, bpm, auto)` lies in
`[0, 16383]`, the output is the song-position message for that value. -/
theorem run_relocated_while_stopped (fuel : Nat) (self : Mclk) (inp : Ports)
    (hsync : (process_control self inp.control).host_info = true ∧ inp.p_sync > 0)
    (hspeed : (process_control self inp.control).host_speed = 0)
    (hjump : |self.bb - (process_control self inp.control).bar_beats| > 1) :
    (block_transport self inp).self.bb = -1
    ∧ (block_transport self inp).rolling = false
    ∧ ∃ r, run fuel self inp = .ok r
        ∧ r.1.rolling = false
        ∧ (∀ e ∈ r.2.events, is_clock e = false ∧ is_transport e = false)
        ∧ (set_mode inp.p_mode &&& MSG_NO_POSITION = 0 →
            0 ≤ calc_song_pos (block_transport self inp).bb (block_transport self inp).bpm (-1) →
            calc_song_pos (block_transport self inp).bb (block_transport self inp).bpm (-1)
              < 16384 →
            r.2.events =
              [⟨0, [0xf2,
                (calc_song_pos (block_transport self inp).bb (block_transport self inp).bpm (-1)
                  % 128).toNat,
                (calc_song_pos (block_transport self inp).bb (block_transport self inp).bpm (-1)
                  / 128 % 128).toNat]⟩]) := by
  have hsp : ¬ (process_control self inp.control).host_speed < 0 := by rw [hspeed]; simp
  have ht := block_transport_located self inp hsync hsp hjump
  have hbb : (block_transport self inp).self.bb = -1 := by rw [ht]
  have hnr : (block_transport self inp).rolling = false := by rw [ht]
  have hrev : (block_transport self inp).reverse = false := by rw [ht]
  have hwas : (block_transport self inp).self.rolling = false := by rw [ht]
  have hm : (block_transport self inp).self.mode = set_mode inp.p_mode :=
    (block_transport_keeps self inp).2.1
  obtain ⟨r, h1, _, h3, _⟩ := run_not_rolling fuel self inp hnr
  obtain ⟨h4, h5⟩ := h3 hrev
  -- the events before the tick loop: the located check alone
  have hev : (before_ticks self inp).2
      = (send_located (block_transport self inp).self false (block_transport self inp).bb
          (block_transport self inp).bpm).2 := by
    unfold before_ticks
    simp only [hnr]
    rw [send_transport_same _ _ _ _ _ (by rw [(send_located_keeps _ _ _ _).2.1, hwas]),
      List.append_nil]
  refine ⟨hbb, hnr, r, h1, h4, ?_, ?_⟩
  · intro e he
    rw [h5, hev] at he
    have := (send_located_events _ _ _ _ e he).2.1
    exact ⟨not_clock_of_song_position this, by
      cases hc : is_transport e with
      | false => rfl
      | true => rw [not_song_position_of_transport hc] at this; cases this⟩
  · intro hpos h0 h16
    rw [h5, hev]
    -- the value is in range, so the reported bar_beat is not the sentinel -1
    have hne : (block_transport self inp).bb ≠ (block_transport self inp).self.bb := by
      rw [hbb]
      intro hc
      have hbpm0 : (block_transport self inp).bpm = 0 := by rw [ht]; simp [hspeed]
      rw [hc, hbpm0] at h0
      revert h0
      with_unfolding_all decide
    unfold send_located
    rw [if_pos ⟨rfl, hwas⟩, if_pos hne]
    simp only
    rw [send_pos_message_enabled _ _ (by rw [hm]; exact hpos), if_pos ⟨h0, h16⟩]

/-- Witness for C9: an instance stopped at bar_beat 4 under external sync
whose host, still stopped, reports bar 2 (bar_beat 8): song position 32. -/
theorem run_relocated_while_stopped_witness :
    ∃ r, run 0 stopped_sync ⟨[host_report 2 0 120 0 192000], 3, 1, 120, 0, 0, 512⟩ = .ok r
      ∧ r.1.rolling = false
      ∧ r.2.events = [⟨0, [0xf2, 32, 0]⟩] := by
  obtain ⟨_, _, r, h1, h2, _, h4⟩ := run_relocated_while_stopped 0 stopped_sync
    ⟨[host_report 2 0 120 0 192000], 3, 1, 120, 0, 0, 512⟩
    (by with_unfolding_all decide) (by with_unfolding_all rfl)
    (by with_unfolding_all decide)
  exact ⟨r, h1, h2,
    (h4 (by with_unfolding_all decide) (by with_unfolding_all decide)
      (by with_unfolding_all decide)).trans (by with_unfolding_all decide)⟩

/-- C10 (as amended), reversed host transport: a block run with external sync
enabled and a host report of negative speed (such as -1) is treated as not
rolling, whatever the prior state and the transport request: the effective
rolling is false, `run` returns whatever the fuel and emits no event at all
(zero clock pulses, and no stop message either), and the stored transport
flag is left at its prior value. -/
theorem run_reversed_host (fuel : Nat) (self : Mclk) (inp : Ports)
    (hsync : (process_control self inp.control).host_info = true ∧ inp.p_sync > 0)
    (hspeed : (process_control self inp.control).host_speed < 0) :
    (block_transport self inp).rolling = false
    ∧ ∃ r, run fuel self inp = .ok r ∧ r.2.events = [] ∧ r.1.rolling = self.rolling := by
  have k3 := (process_control_keeps inp.control self).2.2.1
  have ht : block_transport self inp
      = ⟨{ process_control self inp.control with mode := set_mode inp.p_mode },
          (process_control self inp.control).host_bpm,
          (process_control self inp.control).host_bpm
            * (process_control self inp.control).host_speed,
          (process_control self inp.control).host_frame,
          decide ((process_control self inp.control).host_speed > 0),
          (process_control self inp.control).bar_beats, true⟩ := by
    unfold block_transport set_transport
    simp only
    rw [if_pos hsync, if_pos hspeed]
  have hnr : (block_transport self inp).rolling = false := by
    rw [ht]
    simp only [decide_eq_false_iff_not, not_lt]
    exact le_of_lt hspeed
  obtain ⟨r, h1, _, _, h4⟩ := run_not_rolling fuel self inp hnr
  obtain ⟨h5, h6⟩ := h4 (by rw [ht])
  refine ⟨hnr, r, h1, h6, ?_⟩
  rw [h5, ht]
  exact k3

/-- Witness for C10 (as amended): an instance rolling under external sync
whose host reports speed -1. -/
theorem run_reversed_host_witness :
    (block_transport rolling_sync
        ⟨[host_report 1 0 120 (-1) 96000], 3, 1, 120, 1, 0, 512⟩).rolling = false
    ∧ ∃ r, run 0 rolling_sync ⟨[host_report 1 0 120 (-1) 96000], 3, 1, 120, 1, 0, 512⟩ = .ok r
        ∧ r.2.events = [] ∧ r.1.rolling = rolling_sync.rolling :=
  run_reversed_host 0 rolling_sync ⟨[host_report 1 0 120 (-1) 96000], 3, 1, 120, 1, 0, 512⟩
    (by with_unfolding_all decide) (by with_unfolding_all decide)

/-- C10 fails as stated: an instance rolling under external sync whose host
reports speed -1 emits nothing, but the transport state recorded after the
block is still rolling = true. -/
theorem run_reversed_host_counterexample :
    (run 0 rolling_sync ⟨[host_report 1 0 120 (-1) 96000], 3, 1, 120, 1, 0, 512⟩).toOption.map
        (fun r => (r.1.rolling, r.2.events))
      = some (true, []) := by
  with_unfolding_all decide

/-! ## Scenarios: start and stop -/

/-- A rolling block whose first tick is at or beyond the end of the block
returns, with any positive fuel, right after the events forged before the tick
loop. -/
theorem run_first_tick_beyond (fuel : Nat) (self : Mclk) (inp : Ports) (last interval : ℚ)
    (hrev : (block_transport self inp).reverse = false)
    (hroll : (block_transport self inp).rolling = true)
    (hclk : set_mode inp.p_mode &&& MSG_NO_CLOCK = 0)
    (hl : (before_ticks self inp).1.mclk_last_tick = some last)
    (hi : clock_tick_interval (block_transport self inp).self.sample_rate
      (block_transport self inp).bpm = some interval)
    (hend : (inp.n_samples : Int)
      ≤ llrint (last + interval) - (block_transport self inp).sample_position) :
    ∃ r, run (fuel + 1) self inp = .ok r ∧ r.2.events = (before_ticks self inp).2 := by
  have hmode := before_ticks_mode self inp
  refine ⟨(next_cycle
      { (before_ticks self inp).1 with
        mclk_last_tick := some last, last_bcnt := (before_ticks self inp).1.last_bcnt }
      inp (block_transport self inp).rolling (block_transport self inp).bpm,
    ⟨(before_ticks self inp).2 ++ [], (block_transport self inp).p_hostbpm,
      (block_transport self inp).bb⟩), ?_, List.append_nil _⟩
  unfold run
  simp only
  rw [if_neg (by rw [hrev]; decide), if_neg (by
    rw [hmode, hroll]
    intro hc
    rcases hc with hc | hc
    · cases hc
    · exact hc hclk), hl, hi]
  simp only [tick_loop_succ, if_pos (ge_iff_le.mpr hend)]

/-- C11 (as amended), scenario start: a fresh instance at 48000 Hz,
free-running at 120 bpm with all message classes enabled, whose transport is
requested for a block of 512 samples, returns with any positive fuel and emits
the start message at offset 0 and nothing else: its clock pulses are those at
the offsets `round (k * 48000*60/120/24) = 1000 * k` below 512 for the pulse
indices `k >= 1`, of which there is none; the pulse `k = 0` at the start
position is not sent. -/
theorem run_scenario_start (fuel : Nat) :
    ∃ r, run (fuel + 1) (instantiate 48000) ⟨[], 3, 0, 120, 1, 0, 512⟩ = .ok r
      ∧ r.2.events = [send_rt_message 0 MIDI_RT_START]
      ∧ ∀ t : Int, t ∈ clock_offsets r.2.events ↔
          ∃ k : Nat, 1 ≤ k ∧ t = rint ((k : ℚ) * (48000 * 60 / 120 / 24)) ∧ t < 512 := by
  obtain ⟨r, h1, h2⟩ := run_first_tick_beyond fuel (instantiate 48000)
    ⟨[], 3, 0, 120, 1, 0, 512⟩ 0 1000
    (by with_unfolding_all decide) (by with_unfolding_all decide)
    (by with_unfolding_all decide) (by with_unfolding_all rfl) (by with_unfolding_all rfl)
    (by with_unfolding_all decide)
  have hev : r.2.events = [send_rt_message 0 MIDI_RT_START] :=
    h2.trans (by with_unfolding_all decide)
  refine ⟨r, h1, hev, ?_⟩
  intro t
  rw [hev]
  constructor
  · intro ht
    simp [clock_offsets, clock_events, is_clock, send_rt_message, MIDI_RT_START,
      MIDI_RT_CLOCK] at ht
  · rintro ⟨k, hk, ht, hlt⟩
    exfalso
    have e : (k : ℚ) * (48000 * 60 / 120 / 24) = ((1000 * (k : Int) : Int) : ℚ) := by
      push_cast; ring
    rw [e, rint_intCast] at ht
    omega

/-- C11 fails as stated: in the start scenario the pulse with index `k = 0` is
claimed at the offset `round (0 * 48000*60/120/24) = 0 < 512`, but the block
emits the start message alone, with no clock pulse at offset 0. -/
theorem run_scenario_start_counterexample :
    (run 1 (instantiate 48000) ⟨[], 3, 0, 120, 1, 0, 512⟩).toOption.map
        (fun r => r.2.events) = some [send_rt_message 0 MIDI_RT_START]
    ∧ rint (((0 : Nat) : ℚ) * (48000 * 60 / 120 / 24)) = 0
    ∧ send_rt_message 0 MIDI_RT_CLOCK ∉ [send_rt_message 0 MIDI_RT_START] := by
  refine ⟨by with_unfolding_all decide, by with_unfolding_all decide, by decide⟩

/-- A block entered rolling (the flag still true at the comparison) whose
effective rolling is false: the instance and the events before the tick
loop. -/
theorem before_ticks_stop (self : Mclk) (inp : Ports)
    (hwas : (block_transport self inp).self.rolling = true)
    (hnow : (block_transport self inp).rolling = false) :
    before_ticks self inp
      = ({ (block_transport self inp).self with
            last_bcnt := (send_pos_message (block_transport self inp).self
              (calc_song_pos (block_transport self inp).bb
                (block_transport self inp).bpm (-1))).1
            mclk_last_tick := (samples_per_beat (block_transport self inp).self.sample_rate
              (block_transport self inp).bpm).map (fun x => x * (block_transport self inp).bb)
            rolling := false },
          (if set_mode inp.p_mode &&& MSG_NO_TRANSPORT = 0 then
              [send_rt_message 0 MIDI_RT_STOP] else [])
            ++ (send_pos_message (block_transport self inp).self
              (calc_song_pos (block_transport self inp).bb
                (block_transport self inp).bpm (-1))).2) := by
  have hm : (block_transport self inp).self.mode = set_mode inp.p_mode :=
    (block_transport_keeps self inp).2.1
  unfold before_ticks
  simp only [send_located_was_rolling _ _ _ _ hwas, hnow, List.nil_append]
  rw [send_transport_stop _ _ _ _ hwas, hm]

/-- C12 (as amended), scenario stop: in internal mode with all message classes
enabled, an instance rolling at bar_beat 4 whose transport request is switched
off at 120 bpm returns and emits a stop message at offset 0 followed by a
song-position message whose 14-bit value is
`round (120 * 4 / 60) + floor (4 * 4) = 8 + 16 = 24`. -/
theorem run_scenario_stop (fuel : Nat) (self : Mclk) (inp : Ports)
    (hint : ¬ ((process_control self inp.control).host_info = true ∧ inp.p_sync > 0))
    (hmode : set_mode inp.p_mode = 0)
    (hroll : self.rolling = true) (hbb : self.bb = 4) (hbpm : inp.p_bpm = 120)
    (htr : inp.p_transport ≤ 0) (hrew : inp.p_rewind ≤ 0) :
    ∃ r, run fuel self inp = .ok r
      ∧ r.2.events = [send_rt_message 0 MIDI_RT_STOP, ⟨0, [0xf2, 24, 0]⟩]
      ∧ r.1.last_bcnt = 24 ∧ r.1.rolling = false := by
  obtain ⟨_, _, k3, k4, _, _, _⟩ := process_control_keeps inp.control self
  have ht : block_transport self inp
      = ⟨{ process_control self inp.control with mode := set_mode inp.p_mode },
          if (process_control self inp.control).host_info = true then -1 else 0, inp.p_bpm,
          (process_control self inp.control).sample_pos, false,
          (process_control self inp.control).bb, false⟩ := by
    unfold block_transport
    rw [set_transport_free { process_control self inp.control with mode := set_mode inp.p_mode }
      inp hint hrew]
    simp [not_lt.mpr htr]
  have hwas : (block_transport self inp).self.rolling = true := by rw [ht]; simp [k3, hroll]
  have hnow : (block_transport self inp).rolling = false := by rw [ht]
  have hv : calc_song_pos (block_transport self inp).bb (block_transport self inp).bpm (-1)
      = 24 := by
    rw [ht]
    simp only [k4, hbb, hbpm]
    with_unfolding_all decide
  have hbt := before_ticks_stop self inp hwas hnow
  rw [hv, send_pos_message_enabled _ _ (by
    rw [(block_transport_keeps self inp).2.1, hmode]; decide)] at hbt
  obtain ⟨r, h1, _, h3, _⟩ := run_not_rolling fuel self inp hnow
  obtain ⟨h4, h5⟩ := h3 (by rw [ht])
  refine ⟨r, h1, ?_, ?_, h4⟩
  · rw [h5, hbt, hmode]
    rfl
  · have hr := run_ok_cases h1
    rcases hr with ⟨hrev, _⟩ | ⟨_, _, hr⟩ | ⟨_, hr2, _⟩
    · rw [ht] at hrev; cases hrev
    · rw [hr, (next_cycle_keeps _ _ _ _).2.2.1, hbt]
    · rw [hnow] at hr2; cases hr2

/-- Witness for C12 (as amended): the free-running instance rolling at
bar_beat 4, in a block of 512 samples. -/
theorem run_scenario_stop_witness :
    ∃ r, run 0 rolling_internal ⟨[], 3, 0, 120, 0, 0, 512⟩ = .ok r
      ∧ r.2.events = [send_rt_message 0 MIDI_RT_STOP, ⟨0, [0xf2, 24, 0]⟩]
      ∧ r.1.last_bcnt = 24 ∧ r.1.rolling = false :=
  run_scenario_stop 0 rolling_internal ⟨[], 3, 0, 120, 0, 0, 512⟩
    (by with_unfolding_all decide) (by with_unfolding_all decide) rfl rfl rfl
    (by with_unfolding_all decide) (by with_unfolding_all decide)

/-- C12 fails as stated: in the stop scenario the song-position message
carries the value 24 (data bytes 24, 0), not `floor (4 * 4) = 16`: the
automatic offset `round (120 * 4 / 60) = 8` is added. -/
theorem run_scenario_stop_counterexample :
    (run 0 rolling_internal ⟨[], 3, 0, 120, 0, 0, 512⟩).toOption.map (fun r => r.2.events)
        = some [send_rt_message 0 MIDI_RT_STOP, ⟨0, [0xf2, 24, 0]⟩]
    ∧ ⌊(4 : ℚ) * 4⌋ = 16
    ∧ (24 : Int) ≠ 16 := by
  refine ⟨by with_unfolding_all decide, by with_unfolding_all decide, by decide⟩

/-! ## Song position -/

/-- At bar_beat 0 the automatic offset is 0 and so is the song position. -/
theorem calc_song_pos_zero (bpm : ℚ) (off : Int) (hoff : off < 0) :
    calc_song_pos 0 bpm off = 0 := by
  unfold calc_song_pos
  simp only [if_pos hoff, if_true, mul_zero, Int.floor_zero, add_zero]
  exact to_int64_of_range (by decide) (by decide)

/-- C14: for every bpm, `calc_song_pos` at bar_beat 0 with the automatic
offset (any negative `off`, `-1` at the call sites) is 0. -/
theorem calc_song_pos_origin (bpm : ℚ) :
    calc_song_pos 0 bpm (-1) = 0 ∧ ∀ off : Int, off < 0 → calc_song_pos 0 bpm off = 0 :=
  ⟨calc_song_pos_zero bpm (-1) (by decide), calc_song_pos_zero bpm⟩

/-- The masks and shift of `send_pos_message` on a value in range:
`bcnt & 0x7f` is `bcnt % 128` and `(bcnt >> 7) & 0x7f` is `bcnt / 128 % 128`. -/
theorem pos_bytes_eq (n : Nat) :
    n &&& 0x7f = n % 128 ∧ (n >>> 7) &&& 0x7f = n / 128 % 128 := by
  have h1 : ∀ m : Nat, m &&& 0x7f = m % 128 := fun m => Nat.and_pow_two_sub_one_eq_mod m 7
  refine ⟨h1 n, ?_⟩
  rw [h1, Nat.shiftRight_eq_div_pow]

/-- C15, song-position message: with song-position messages enabled,
`send_pos_message` returns `bcnt`; for `0 <= bcnt <= 16383` it forges exactly
one event, the three bytes `0xF2, lo, hi` at offset 0 with `lo < 128`,
`hi < 128` and `lo + 128 * hi = bcnt` (`lo = bcnt & 0x7f`,
`hi = (bcnt >> 7) & 0x7f`), and outside that range it forges nothing; with
song-position messages suppressed it forges nothing and returns -1. -/
theorem send_pos_message_spec (self : Mclk) (bcnt : Int) :
    (self.mode &&& MSG_NO_POSITION = 0 →
      (send_pos_message self bcnt).1 = bcnt
      ∧ (0 ≤ bcnt ∧ bcnt ≤ 16383 →
          ∃ lo hi : Nat, (send_pos_message self bcnt).2 = [⟨0, [0xf2, lo, hi]⟩]
            ∧ lo < 128 ∧ hi < 128 ∧ (lo : Int) + 128 * (hi : Int) = bcnt
            ∧ lo = bcnt.toNat &&& 0x7f ∧ hi = (bcnt.toNat >>> 7) &&& 0x7f)
      ∧ (¬ (0 ≤ bcnt ∧ bcnt ≤ 16383) → (send_pos_message self bcnt).2 = []))
    ∧ (self.mode &&& MSG_NO_POSITION ≠ 0 → send_pos_message self bcnt = (-1, [])) := by
  constructor
  · intro hen
    rw [send_pos_message_enabled self bcnt hen]
    refine ⟨rfl, ?_, ?_⟩
    · intro hr
      have hr1 : 0 ≤ bcnt ∧ bcnt < 16384 := by omega
      refine ⟨(bcnt % 128).toNat, (bcnt / 128 % 128).toNat, ?_, ?_, ?_, ?_, ?_, ?_⟩
      · simp only [if_pos hr1]
      · omega
      · omega
      · omega
      · rw [(pos_bytes_eq bcnt.toNat).1]
        omega
      · rw [(pos_bytes_eq bcnt.toNat).2]
        omega
    · intro hr
      have hr1 : ¬ (0 ≤ bcnt ∧ bcnt < 16384) := by omega
      simp only [if_neg hr1]
  · intro hsup
    unfold send_pos_message
    rw [if_pos hsup]

/-- Witness for C15: the value 300 with all messages enabled is sent as
`0xF2, 44, 2`. -/
theorem send_pos_message_spec_witness :
    (send_pos_message (instantiate 48000) 300).1 = 300
    ∧ (send_pos_message (instantiate 48000) 300).2 = [⟨0, [0xf2, 44, 2]⟩]
    ∧ (send_pos_message (instantiate 48000) 20000).2 = [] :=
  ⟨((send_pos_message_spec (instantiate 48000) 300).1 (by decide)).1,
    by
      obtain ⟨lo, hi, h1, _, _, _, h5, h6⟩ :=
        ((send_pos_message_spec (instantiate 48000) 300).1 (by decide)).2.1 (by decide)
      rw [h1, h5, h6]
      decide,
    ((send_pos_message_spec (instantiate 48000) 20000).1 (by decide)).2.2 (by decide)⟩

/-! ## Host position reports -/

/-- C16, invalid host reports are atomic no-ops: when at least one of bar,
beat-in-bar, beats-per-bar, beat-unit, tempo, speed, frame is missing or has
the wrong type, `update_position` leaves the whole state unchanged: no host
field is updated and `host_info` is not set. -/
theorem update_position_invalid (self : Mclk) (obj : PositionObject)
    (h : asLong obj.bar = none ∨ asFloat obj.beat = none ∨ asFloat obj.bpb = none
      ∨ asInt obj.bunit = none ∨ asFloat obj.bpm = none ∨ asFloat obj.speed = none
      ∨ asLong obj.frame = none) :
    update_position self obj = self := by
  unfold update_position
  split
  · rename_i h1 h2 h3 h4 h5 h6 h7
    rw [h1, h2, h3, h4, h5, h6, h7] at h
    simp at h
  · rfl

/-- Witness for C16: a report whose tempo is missing, and one whose bar has
the type of a float. -/
theorem update_position_invalid_witness :
    update_position rolling_sync
        ⟨some (.long 1), some (.float 0), some (.int 4), some (.float 4), none,
          some (.float 1), some (.long 0)⟩ = rolling_sync
    ∧ update_position rolling_sync
        ⟨some (.float 1), some (.float 0), some (.int 4), some (.float 4), some (.float 120),
          some (.float 1), some (.long 0)⟩ = rolling_sync :=
  ⟨update_position_invalid rolling_sync _ (Or.inr (Or.inr (Or.inr (Or.inr (Or.inl rfl))))),
    update_position_invalid rolling_sync _ (Or.inl rfl)⟩

theorem valid_report_false_iff (obj : PositionObject) :
    valid_report obj = false ↔
      (asLong obj.bar = none ∨ asFloat obj.beat = none ∨ asFloat obj.bpb = none
        ∨ asInt obj.bunit = none ∨ asFloat obj.bpm = none ∨ asFloat obj.speed = none
        ∨ asLong obj.frame = none) := by
  unfold valid_report
  cases asLong obj.bar <;> cases asFloat obj.beat <;> cases asFloat obj.bpb <;>
    cases asInt obj.bunit <;> cases asFloat obj.bpm <;> cases asFloat obj.speed <;>
    cases asLong obj.frame <;> simp

/-- A report that fails the test of `update_position` changes nothing. -/
theorem update_position_not_valid (self : Mclk) (obj : PositionObject)
    (h : valid_report obj = false) : update_position self obj = self := by
  unfold update_position
  split
  · rename_i h1 h2 h3 h4 h5 h6 h7
    unfold valid_report at h
    rw [h1, h2, h3, h4, h5, h6, h7] at h
    simp at h
  · rfl

/-- Control events that are no valid report leave the state as it is. -/
theorem process_control_invalid (control : List ControlEvent) :
    ∀ self : Mclk, (∀ ev ∈ control, is_valid_report ev = false) →
      process_control self control = self := by
  induction control with
  | nil => intro self _; rfl
  | cons ev rest ih =>
    intro self h
    have hrest : ∀ e ∈ rest, is_valid_report e = false :=
      fun e he => h e (List.mem_cons_of_mem _ he)
    have hev := h ev (List.mem_cons_self _ _)
    cases ev with
    | position obj =>
      have hstep : process_control self (.position obj :: rest)
          = process_control (update_position self obj) rest := rfl
      rw [hstep, update_position_not_valid self obj hev]
      exact ih self hrest
    | other => exact ih self hrest

theorem process_control_append (pre post : List ControlEvent) (self : Mclk) :
    process_control self (pre ++ post) = process_control (process_control self pre) post := by
  unfold process_control
  rw [List.foldl_append]

/-- A valid report overwrites the six host fields and keeps the others. -/
theorem update_position_eq (self : Mclk) (obj : PositionObject) (bar frame bunit : Int)
    (beat bpb bpm speed : ℚ)
    (hbar : obj.bar = some (.long bar)) (hbeat : obj.beat = some (.float beat))
    (hbunit : obj.bunit = some (.int bunit)) (hbpb : obj.bpb = some (.float bpb))
    (hbpm : obj.bpm = some (.float bpm)) (hspeed : obj.speed = some (.float speed))
    (hframe : obj.frame = some (.long frame)) :
    update_position self obj
      = ⟨true, bpm, (bar : ℚ) * bpb + beat * (bunit : ℚ) / 4, speed, bunit, frame,
          self.sample_rate, self.mode, self.rolling, self.bb, self.last_bcnt, self.sample_pos,
          self.mclk_last_tick⟩ := by
  unfold update_position
  rw [hbar, hbeat, hbunit, hbpb, hbpm, hspeed, hframe]
  rfl

/-- C17 (as amended), valid host reports overwrite wholesale and
idempotently: for a valid report `update_position` sets
`bar_beats = bar * beats_per_bar + beat_in_bar * beat_unit / 4`, stores tempo,
speed and frame verbatim, stores the beat unit in `host_div`, sets
`host_info` and changes no other field; hence applying the report twice is
applying it once, and after a control sequence the state is the one the last
valid report gives (the host snapshot is that of the last valid report). -/
theorem update_position_valid (self : Mclk) (obj : PositionObject) (bar frame bunit : Int)
    (beat bpb bpm speed : ℚ)
    (hbar : obj.bar = some (.long bar)) (hbeat : obj.beat = some (.float beat))
    (hbunit : obj.bunit = some (.int bunit)) (hbpb : obj.bpb = some (.float bpb))
    (hbpm : obj.bpm = some (.float bpm)) (hspeed : obj.speed = some (.float speed))
    (hframe : obj.frame = some (.long frame)) :
    update_position self obj
        = ⟨true, bpm, (bar : ℚ) * bpb + beat * (bunit : ℚ) / 4, speed, bunit, frame,
            self.sample_rate, self.mode, self.rolling, self.bb, self.last_bcnt, self.sample_pos,
            self.mclk_last_tick⟩
    ∧ update_position (update_position self obj) obj = update_position self obj
    ∧ ∀ pre post : List ControlEvent, (∀ ev ∈ post, is_valid_report ev = false) →
        process_control self (pre ++ ControlEvent.position obj :: post)
          = update_position self obj := by
  have hval : ∀ s : Mclk, update_position s obj
      = ⟨true, bpm, (bar : ℚ) * bpb + beat * (bunit : ℚ) / 4, speed, bunit, frame,
          s.sample_rate, s.mode, s.rolling, s.bb, s.last_bcnt, s.sample_pos,
          s.mclk_last_tick⟩ :=
    fun s => update_position_eq s obj bar frame bunit beat bpb bpm speed hbar hbeat hbunit hbpb
      hbpm hspeed hframe
  refine ⟨hval self, ?_, ?_⟩
  · rw [hval (update_position self obj), hval self]
  · intro pre post hpost
    obtain ⟨k1, k2, k3, k4, k5, k6, k7⟩ := process_control_keeps pre self
    have hstep : process_control (process_control self pre) (ControlEvent.position obj :: post)
        = process_control (update_position (process_control self pre) obj) post := rfl
    rw [process_control_append, hstep, process_control_invalid post _ hpost,
      hval (process_control self pre), hval self, k1, k2, k3, k4, k5, k6, k7]

/-- Witness for C17 (as amended): the example report on a fresh instance,
alone, twice, and as the last valid report of a control sequence. -/
theorem update_position_valid_witness :
    update_position (instantiate 48000) report_example
        = ⟨true, 120, 4, 1, 4, 0, 48000, 0, false, 0, -1, 0, some 0⟩
    ∧ update_position (update_position (instantiate 48000) report_example) report_example
        = update_position (instantiate 48000) report_example
    ∧ process_control (instantiate 48000)
        [host_report 7 2 90 1 5000, ControlEvent.position report_example, ControlEvent.other]
        = update_position (instantiate 48000) report_example := by
  obtain ⟨h1, h2, h3⟩ := update_position_valid (instantiate 48000) report_example 1 0 4 0 4 120 1
    rfl rfl rfl rfl rfl rfl rfl
  refine ⟨h1.trans (by with_unfolding_all rfl), h2, ?_⟩
  exact h3 [host_report 7 2 90 1 5000] [ControlEvent.other] (by
    intro ev hev
    rw [List.mem_singleton.mp hev]
    rfl)

/-- C17 fails as stated: a valid report changes a field beyond bar_beats,
tempo, speed, frame and `host_info`: the beat unit is stored in `host_div`. -/
theorem update_position_counterexample :
    (update_position (instantiate 48000) report_example).host_div = 4
    ∧ (instantiate 48000).host_div = 0 := by
  refine ⟨by with_unfolding_all decide, by with_unfolding_all decide⟩

/-! ## Rewind -/

theorem set_transport_rewind (self : Mclk) (inp : Ports)
    (hint : ¬ (self.host_info = true ∧ inp.p_sync > 0)) (hrew : 0 < inp.p_rewind) :
    set_transport self inp
      = ⟨{ self with bb := 0, last_bcnt := -1, sample_pos := 0 },
          if self.host_info = true then -1 else 0, inp.p_bpm, 0, false, 0, false⟩ := by
  unfold set_transport
  rw [if_neg hint]
  simp only [if_pos (gt_iff_lt.mpr hrew)]

theorem next_cycle_stopped_free (self : Mclk) (inp : Ports) (bpm : ℚ)
    (hint : ¬ (self.host_info = true ∧ inp.p_sync > 0)) :
    (next_cycle self inp false bpm).bb = self.bb
      ∧ (next_cycle self inp false bpm).sample_pos = self.sample_pos := by
  unfold next_cycle
  by_cases hh : self.host_info = true
  · have hs : ¬ inp.p_sync > 0 := fun hc => hint ⟨hh, hc⟩
    simp [hh, hs]
  · simp [hh]

/-- C18, rewind: for every prior state, every transport request and every
block length, a block run in internal mode (sync off or no host report yet)
with the rewind control asserted returns, whatever the fuel, and ends with
bar_beat position 0, sample position 0, rolling false and no pending
song-position resync (`last_bcnt <= 0`); it emits no start, no continue and no
clock pulse. -/
theorem run_rewind (fuel : Nat) (self : Mclk) (inp : Ports)
    (hint : ¬ ((process_control self inp.control).host_info = true ∧ inp.p_sync > 0))
    (hrew : 0 < inp.p_rewind) :
    ∃ r, run fuel self inp = .ok r
      ∧ r.1.bb = 0 ∧ r.1.sample_pos = 0 ∧ r.1.rolling = false ∧ r.1.last_bcnt ≤ 0
      ∧ ∀ e ∈ r.2.events,
          e.bytes ≠ [MIDI_RT_START] ∧ e.bytes ≠ [MIDI_RT_CONTINUE] ∧ is_clock e = false := by
  have ht : block_transport self inp
      = ⟨{ process_control self inp.control with
            mode := set_mode inp.p_mode, bb := 0, last_bcnt := -1, sample_pos := 0 },
          if (process_control self inp.control).host_info = true then -1 else 0, inp.p_bpm,
          0, false, 0, false⟩ := by
    unfold block_transport
    rw [set_transport_rewind { process_control self inp.control with mode := set_mode inp.p_mode }
      inp hint hrew]
  have hnow : (block_transport self inp).rolling = false := by rw [ht]
  have hrev : (block_transport self inp).reverse = false := by rw [ht]
  have hm : (block_transport self inp).self.mode = set_mode inp.p_mode :=
    (block_transport_keeps self inp).2.1
  -- the instance and the events before the tick loop
  have hbt : (before_ticks self inp).1.bb = 0 ∧ (before_ticks self inp).1.sample_pos = 0
      ∧ (before_ticks self inp).1.last_bcnt ≤ 0
      ∧ (before_ticks self inp).1.host_info = (process_control self inp.control).host_info
      ∧ ∀ e ∈ (before_ticks self inp).2,
          e.bytes ≠ [MIDI_RT_START] ∧ e.bytes ≠ [MIDI_RT_CONTINUE] := by
    by_cases hwas : (block_transport self inp).self.rolling = true
    · rw [before_ticks_stop self inp hwas hnow]
      have h0 : calc_song_pos (block_transport self inp).bb (block_transport self inp).bpm (-1)
          = 0 := by
        rw [ht]
        exact calc_song_pos_zero _ _ (by decide)
      rw [h0]
      refine ⟨by rw [ht], by rw [ht], ?_, by rw [ht], ?_⟩
      · simp only
        unfold send_pos_message
        split_ifs <;> simp
      · intro e he
        rcases List.mem_append.mp he with he | he
        · split_ifs at he
          · rw [List.mem_singleton.mp he]
            exact ⟨by decide, by decide⟩
          · exact absurd he (List.not_mem_nil _)
        · have hp := (send_pos_message_events _ _ e he).2.1
          unfold is_song_position at hp
          split at hp
          · rename_i hb
            rw [hb]
            exact ⟨by simp [MIDI_RT_START], by simp [MIDI_RT_CONTINUE]⟩
          · cases hp
    · have hwas1 : (block_transport self inp).self.rolling = false := by simpa using hwas
      have hbt1 : before_ticks self inp
          = ({ (block_transport self inp).self with rolling := false }, []) := by
        unfold before_ticks
        simp only [hnow]
        have hl : send_located (block_transport self inp).self false (block_transport self inp).bb
            (block_transport self inp).bpm = ((block_transport self inp).self, []) := by
          unfold send_located
          rw [if_pos ⟨rfl, hwas1⟩, if_neg (by rw [ht]; simp)]
        rw [hl, send_transport_same _ _ _ _ _ hwas1.symm]
        simp only [List.append_nil]
      rw [hbt1, ht]
      refine ⟨rfl, rfl, ?_, rfl, ?_⟩
      · show (-1 : Int) ≤ 0
        decide
      · intro e he
        exact absurd he (List.not_mem_nil _)
  obtain ⟨b1, b2, b3, b4, b5⟩ := hbt
  obtain ⟨r, h1, h2, h3, _⟩ := run_not_rolling fuel self inp hnow
  obtain ⟨h4, h5⟩ := h3 hrev
  have hr : r.1 = next_cycle (before_ticks self inp).1 inp false (block_transport self inp).bpm := by
    rcases run_ok_cases h1 with ⟨hc, _⟩ | ⟨_, _, hr⟩ | ⟨_, hc, _⟩
    · rw [hrev] at hc; cases hc
    · rw [hr, hnow]
    · rw [hnow] at hc; cases hc
  obtain ⟨n1, n2⟩ := next_cycle_stopped_free (before_ticks self inp).1 inp
    (block_transport self inp).bpm (by rw [b4]; exact hint)
  refine ⟨r, h1, ?_, ?_, h4, ?_, ?_⟩
  · rw [hr, n1, b1]
  · rw [hr, n2, b2]
  · rw [hr, (next_cycle_keeps _ _ _ _).2.2.1]
    exact b3
  · intro e he
    have hnc : is_clock e = false := by
      have hmem : e ∉ clock_events r.2.events := by rw [h2]; exact List.not_mem_nil _
      unfold clock_events at hmem
      rw [List.mem_filter] at hmem
      cases hc : is_clock e with
      | false => rfl
      | true => exact absurd ⟨he, hc⟩ hmem
    rw [h5] at he
    exact ⟨(b5 e he).1, (b5 e he).2, hnc⟩

/-- Witness for C18: the free-running instance rolling at bar_beat 4 is
rewound while its transport is requested: stop and song position 0. -/
theorem run_rewind_witness :
    ∃ r, run 0 rolling_internal ⟨[], 3, 0, 120, 1, 1, 512⟩ = .ok r
      ∧ r.1.bb = 0 ∧ r.1.sample_pos = 0 ∧ r.1.rolling = false ∧ r.1.last_bcnt ≤ 0
      ∧ ∀ e ∈ r.2.events,
          e.bytes ≠ [MIDI_RT_START] ∧ e.bytes ≠ [MIDI_RT_CONTINUE] ∧ is_clock e = false :=
  run_rewind 0 rolling_internal ⟨[], 3, 0, 120, 1, 1, 512⟩
    (by with_unfolding_all decide) (by with_unfolding_all decide)

/-! ## The continue message and the end of the tick loop -/

/-- The transition code never forges a continue message: its continue branch
asks for song-position messages to be suppressed inside the branch taken when
they are not. -/
theorem send_transport_no_continue (self : Mclk) (rolling : Bool) (bb bpm : ℚ)
    (spb : Option ℚ) :
    ∀ e ∈ (send_transport self rolling bb bpm spb).2, e.bytes ≠ [MIDI_RT_CONTINUE] := by
  intro e he
  have hpos := send_pos_message_events self (calc_song_pos bb bpm (-1)) e
  have hsp : is_song_position e = true → e.bytes ≠ [MIDI_RT_CONTINUE] := by
    intro hp hc
    rw [is_song_position, hc] at hp
    simp [MIDI_RT_CONTINUE] at hp
  unfold send_transport at he
  simp only at he
  split_ifs at he with h1 h2 h3 h4 h5 h6 h7
  · rw [List.mem_singleton.mp he]
    decide
  · exact absurd he (List.not_mem_nil _)
  · exact absurd (Or.inr h5) h3
  · exact absurd he (List.not_mem_nil _)
  · exact absurd he (List.not_mem_nil _)
  · rcases List.mem_append.mp he with he | he
    · rw [List.mem_singleton.mp he]
      decide
    · exact hsp (hpos he).2.1
  · rcases List.mem_append.mp he with he | he
    · exact absurd he (List.not_mem_nil _)
    · exact hsp (hpos he).2.1
  · exact absurd he (List.not_mem_nil _)

theorem before_ticks_no_continue (self : Mclk) (inp : Ports) :
    ∀ e ∈ (before_ticks self inp).2, e.bytes ≠ [MIDI_RT_CONTINUE] := by
  intro e he
  unfold before_ticks at he
  rcases List.mem_append.mp he with he | he
  · intro hc
    have hp := (send_located_events _ _ _ _ e he).2.1
    rw [is_song_position, hc] at hp
    simp [MIDI_RT_CONTINUE] at hp
  · exact send_transport_no_continue _ _ _ _ _ e he

/-- C19: the transition code of `run` never forges a continue message (its
continue branch is unreachable); when song-position messages are suppressed
(mode selector 0, 1 or 2) a stopped-to-rolling transition is announced with
start if transport messages are enabled and with nothing otherwise, also when
resuming from a nonzero position, and no returning call emits a continue
message; a continue message in the output of any call comes from the tick
loop, not from the events before it, and needs all message classes enabled. -/
theorem run_continue_only_with_position (self : Mclk) (inp : Ports) :
    (∀ (s : Mclk) (rolling : Bool) (bb bpm : ℚ) (spb : Option ℚ),
        ∀ e ∈ (send_transport s rolling bb bpm spb).2, e.bytes ≠ [MIDI_RT_CONTINUE])
    ∧ (rintf inp.p_mode = 0 ∨ rintf inp.p_mode = 1 ∨ rintf inp.p_mode = 2 →
        ((block_transport self inp).self.rolling = false →
          (block_transport self inp).rolling = true →
          (before_ticks self inp).2 =
            if set_mode inp.p_mode &&& MSG_NO_TRANSPORT = 0
            then [send_rt_message 0 MIDI_RT_START] else [])
        ∧ ∀ fuel r, run fuel self inp = .ok r →
            ∀ e ∈ r.2.events, e.bytes ≠ [MIDI_RT_CONTINUE])
    ∧ ∀ fuel r, run fuel self inp = .ok r →
        ∀ e ∈ r.2.events, e.bytes = [MIDI_RT_CONTINUE] →
          set_mode inp.p_mode = 0 ∧ e ∉ (before_ticks self inp).2 := by
  have hm : (block_transport self inp).self.mode = set_mode inp.p_mode :=
    (block_transport_keeps self inp).2.1
  have hmode := before_ticks_mode self inp
  -- a continue message in the output: from the tick loop, with the empty mask
  have hcont : ∀ fuel r, run fuel self inp = .ok r →
      ∀ e ∈ r.2.events, e.bytes = [MIDI_RT_CONTINUE] →
        set_mode inp.p_mode = 0 ∧ e ∉ (before_ticks self inp).2 := by
    intro fuel r h e he hc
    have hnb : e ∉ (before_ticks self inp).2 :=
      fun hb => before_ticks_no_continue self inp e hb hc
    refine ⟨?_, hnb⟩
    rcases run_ok_cases h with ⟨_, hr⟩ | ⟨_, _, hr⟩
      | ⟨_, _, _, last, interval, l1, b1, evs, _, _, hloop, hr⟩
    · rw [hr] at he
      exact absurd he (List.not_mem_nil _)
    · rw [hr] at he
      exact absurd he hnb
    · rw [hr] at he
      rcases List.mem_append.mp he with he | he
      · exact absurd he hnb
      · rw [hmode] at hloop
        rcases tick_loop_classes _ _ _ _ _ hloop e he with h1 | ⟨_, h2, _⟩
        · rw [is_clock, hc] at h1
          simp [MIDI_RT_CONTINUE, MIDI_RT_CLOCK] at h1
        · exact set_mode_position_enabled h2
  refine ⟨send_transport_no_continue, ?_, hcont⟩
  intro hsel
  have hsup : set_mode inp.p_mode &&& MSG_NO_POSITION ≠ 0 := by
    rcases hsel with h | h | h
    · rw [set_mode_zero h]; decide
    · rw [set_mode_one h]; decide
    · rw [set_mode_two h]; decide
  refine ⟨?_, ?_⟩
  · intro hstop hroll
    unfold before_ticks
    simp only [hroll, send_located_rolling, List.nil_append]
    rw [send_transport_start _ _ _ _ hstop (Or.inr (by rw [hm]; exact hsup)), hm]
  · intro fuel r h e he hc
    have := (hcont fuel r h e he hc).1
    rw [this] at hsup
    exact hsup (by decide)

/-- Witness for C19: with mode selector 2 the instance stopped at bar_beat 4
with a pending resync is started with a start message, and its block of 60000
samples at 15 bpm has no continue message. -/
theorem run_continue_only_with_position_witness :
    (before_ticks stopped_pending ⟨[], 2, 0, 15, 1, 0, 60000⟩).2
        = [send_rt_message 0 MIDI_RT_START]
    ∧ ∀ fuel r, run fuel stopped_pending ⟨[], 2, 0, 15, 1, 0, 60000⟩ = .ok r →
        ∀ e ∈ r.2.events, e.bytes ≠ [MIDI_RT_CONTINUE] :=
  ⟨(((run_continue_only_with_position stopped_pending ⟨[], 2, 0, 15, 1, 0, 60000⟩).2.1
      (Or.inr (Or.inr (by with_unfolding_all decide)))).1
      (by with_unfolding_all decide) (by with_unfolding_all decide)).trans
      (by with_unfolding_all decide),
    ((run_continue_only_with_position stopped_pending ⟨[], 2, 0, 15, 1, 0, 60000⟩).2.1
      (Or.inr (Or.inr (by with_unfolding_all decide)))).2⟩

/-- More fuel does not change the result of the tick loop. -/
theorem tick_loop_mono {mode : Nat} {bb bpm interval : ℚ} {sample_position : Int}
    {n_samples : Nat} :
    ∀ (fuel : Nat) (last : ℚ) (lb : Int) (t : Nat) (r : ℚ × Int × List MidiEvent),
      tick_loop mode bb bpm interval sample_position n_samples fuel last lb t = some r →
      tick_loop mode bb bpm interval sample_position n_samples (fuel + 1) last lb t = some r := by
  intro fuel
  induction fuel with
  | zero => intro last lb t r h; simp [tick_loop] at h
  | succ fuel ih =>
    intro last lb t r h
    rw [tick_loop_succ] at h
    rw [tick_loop_succ]
    split_ifs at h ⊢ with h1 h2
    · exact h
    · cases hrec : tick_loop mode bb bpm interval sample_position n_samples fuel
          (last + interval)
          (send_continue mode bb bpm lb t (llrint (last + interval) - sample_position)).1
          (t + 1) with
      | none => simp [hrec] at h
      | some r1 =>
        rw [hrec] at h
        rw [ih _ _ _ _ hrec]
        exact h
    · exact ih _ _ _ _ h

theorem tick_loop_mono_le {mode : Nat} {bb bpm interval : ℚ} {sample_position : Int}
    {n_samples : Nat} {fuel : Nat} {last : ℚ} {lb : Int} {t : Nat}
    {r : ℚ × Int × List MidiEvent}
    (h : tick_loop mode bb bpm interval sample_position n_samples fuel last lb t = some r) :
    ∀ fuel1, fuel ≤ fuel1 →
      tick_loop mode bb bpm interval sample_position n_samples fuel1 last lb t = some r := by
  intro fuel1 hle
  induction fuel1, hle using Nat.le_induction with
  | base => exact h
  | succ m _ ih => exact tick_loop_mono _ _ _ _ _ ih

/-- On exit the accumulator stands a whole number of intervals after its
start, and the next tick is at or beyond the end of the block. -/
theorem tick_loop_exit {mode : Nat} {bb bpm interval : ℚ} {sample_position : Int}
    {n_samples : Nat} :
    ∀ (fuel : Nat) (last : ℚ) (lb : Int) (t : Nat) (r : ℚ × Int × List MidiEvent),
      tick_loop mode bb bpm interval sample_position n_samples fuel last lb t = some r →
      (∃ j : Nat, j < fuel ∧ r.1 = last + (j : ℚ) * interval)
        ∧ (n_samples : Int) ≤ llrint (r.1 + interval) - sample_position := by
  intro fuel
  induction fuel with
  | zero => intro last lb t r h; simp [tick_loop] at h
  | succ fuel ih =>
    intro last lb t r h
    rw [tick_loop_succ] at h
    split_ifs at h with h1 h2
    · cases h
      exact ⟨⟨0, Nat.succ_pos _, by simp⟩, h1⟩
    · cases hrec : tick_loop mode bb bpm interval sample_position n_samples fuel
          (last + interval)
          (send_continue mode bb bpm lb t (llrint (last + interval) - sample_position)).1
          (t + 1) with
      | none => simp [hrec] at h
      | some r1 =>
        obtain ⟨l1, b1, evs⟩ := r1
        simp only [hrec, Option.some.injEq] at h
        subst h
        obtain ⟨⟨j, hj, hl⟩, hend⟩ := ih _ _ _ _ hrec
        simp only at hl hend ⊢
        refine ⟨⟨j + 1, Nat.succ_lt_succ hj, ?_⟩, hend⟩
        rw [hl]; push_cast; ring
    · obtain ⟨⟨j, hj, hl⟩, hend⟩ := ih _ _ _ _ h
      refine ⟨⟨j + 1, Nat.succ_lt_succ hj, ?_⟩, hend⟩
      rw [hl]; push_cast; ring

/-- C20: for a positive sample rate and every effective tempo `bpm > 0` the
tick interval is finite and positive, and the clock-tick loop of `run` ends
from every loop state and for every block length: some fuel, and every larger
one, gives the same result; the loop has then advanced the accumulator by a
finite number `j` of intervals, and on exit
`llrint (mclk_last_tick + clock_tick_interval) - sample_position >= n`. -/
theorem tick_loop_terminates_positive (sample_rate bpm : ℚ) (hsr : 0 < sample_rate)
    (hbpm : 0 < bpm) :
    ∃ interval, clock_tick_interval sample_rate bpm = some interval ∧ 0 < interval
      ∧ ∀ (mode : Nat) (bb : ℚ) (sample_position : Int) (n_samples : Nat) (last : ℚ)
          (lb : Int) (t : Nat),
          (∃ fuel r,
            ∀ fuel1, fuel ≤ fuel1 →
              tick_loop mode bb bpm interval sample_position n_samples fuel1 last lb t = some r)
          ∧ ∀ fuel r,
              tick_loop mode bb bpm interval sample_position n_samples fuel last lb t = some r →
              (∃ j : Nat, r.1 = last + (j : ℚ) * interval)
                ∧ (n_samples : Int) ≤ llrint (r.1 + interval) - sample_position := by
  have hi := clock_tick_interval_some sample_rate (ne_of_gt hbpm)
  have hpos := clock_tick_interval_pos hsr hbpm hi
  refine ⟨_, hi, hpos, ?_⟩
  intro mode bb sample_position n_samples last lb t
  refine ⟨?_, ?_⟩
  · obtain ⟨fuel, r, h⟩ := tick_loop_exists_fuel mode bb bpm sample_position n_samples hpos
      last lb t
    exact ⟨fuel, r, tick_loop_mono_le h⟩
  · intro fuel r h
    obtain ⟨⟨j, _, hj⟩, hend⟩ := tick_loop_exit _ _ _ _ _ h
    exact ⟨⟨j, hj⟩, hend⟩

/-- Witness for C20: 48000 Hz and 120 bpm, a tick every 1000 samples. -/
theorem tick_loop_terminates_positive_witness :
    ∃ interval, clock_tick_interval 48000 120 = some interval ∧ 0 < interval
      ∧ ∀ (mode : Nat) (bb : ℚ) (sample_position : Int) (n_samples : Nat) (last : ℚ)
          (lb : Int) (t : Nat),
          (∃ fuel r,
            ∀ fuel1, fuel ≤ fuel1 →
              tick_loop mode bb 120 interval sample_position n_samples fuel1 last lb t = some r)
          ∧ ∀ fuel r,
              tick_loop mode bb 120 interval sample_position n_samples fuel last lb t = some r →
              (∃ j : Nat, r.1 = last + (j : ℚ) * interval)
                ∧ (n_samples : Int) ≤ llrint (r.1 + interval) - sample_position :=
  tick_loop_terminates_positive 48000 120 (by norm_num) (by norm_num)

end MclkLv2
